import Mathlib

/-
  Verification of the OntoJSON OWL-to-JSON-Schema transformer.

  This file contains a shallow embedding of the core of the
  `owl2jsonschema` package (rules, schema builder, engine, A-box
  generator, parser fragments, reasoner checks, A-box-to-JSON
  converter) and theorems about the claims of the specification.

  Python dictionaries are modelled as association lists in insertion
  order (assignment to an existing key replaces in place, a new key is
  appended, matching CPython dict semantics); RDF graphs are modelled
  as duplicate-free lists of triples (rdflib graphs are sets of
  triples); JSON values are the inductive `Json` below.
-/

set_option maxHeartbeats 1600000

namespace OntoJson

/-- JSON values (the result type of the transformation pipeline). -/
inductive Json where
  | null : Json
  | str (s : String) : Json
  | int (n : Int) : Json
  | bool (b : Bool) : Json
  | arr (xs : List Json) : Json
  | obj (kvs : List (String × Json)) : Json

/-- Dictionary lookup on an association list (Python `d.get(k)`). -/
def getA {α : Type} (kvs : List (String × α)) (k : String) : Option α :=
  match kvs with
  | [] => none
  | (k2, v) :: rest => if k2 = k then some v else getA rest k

/-- Key membership on an association list (Python `k in d`). -/
def hasKey {α : Type} (kvs : List (String × α)) (k : String) : Bool :=
  match kvs with
  | [] => false
  | (k2, _) :: rest => if k2 = k then true else hasKey rest k

/-- Dictionary assignment `d[k] = v`: replace in place when the key is
present, append otherwise (CPython insertion-order semantics). -/
def setKey {α : Type} (kvs : List (String × α)) (k : String) (v : α) :
    List (String × α) :=
  match kvs with
  | [] => [(k, v)]
  | (k2, v2) :: rest =>
      if k2 = k then (k2, v) :: rest else (k2, v2) :: setKey rest k v

/-- Dictionary update `d.update(other)`: assign every pair of `upd` in order. -/
def updateKeys {α : Type} (base upd : List (String × α)) : List (String × α) :=
  upd.foldl (fun acc p => setKey acc p.1 p.2) base

theorem getA_setKey_self {α : Type} (kvs : List (String × α)) (k : String) (v : α) :
    getA (setKey kvs k v) k = some v := by
  induction kvs with
  | nil => simp [setKey, getA]
  | cons p rest ih =>
      obtain ⟨k2, v2⟩ := p
      by_cases h : k2 = k <;> simp [setKey, getA, h, ih]

theorem getA_setKey_other {α : Type} (kvs : List (String × α)) (k k2 : String)
    (v : α) (h : k2 ≠ k) : getA (setKey kvs k v) k2 = getA kvs k2 := by
  induction kvs with
  | nil => simp [setKey, getA, Ne.symm h]
  | cons p rest ih =>
      obtain ⟨k3, v3⟩ := p
      by_cases h3 : k3 = k
      · subst h3
        simp [setKey, getA, Ne.symm h, h]
      · by_cases h4 : k3 = k2 <;> simp [setKey, getA, h3, h4, ih, h]

theorem hasKey_iff_getA {α : Type} (kvs : List (String × α)) (k : String) :
    hasKey kvs k = true ↔ ∃ v, getA kvs k = some v := by
  induction kvs with
  | nil => simp [hasKey, getA]
  | cons p rest ih =>
      obtain ⟨k2, v2⟩ := p
      by_cases h : k2 = k <;> simp [hasKey, getA, h, ih]

/-- Last component of a string split on a (single-character) separator
(Python `s.split(sep)[-1]`, every separator in the source is one
character). -/
def lastSegment (c : Char) (s : String) : String :=
  String.mk (s.toList.foldl (fun acc x => if x = c then [] else acc ++ [x]) [])

/-- Character membership (Python `c in s`). -/
def strContains (s : String) (c : Char) : Bool := s.toList.contains c

/-- Shared helper `_get_class_name` / `_get_property_name` / `_get_local_name`
of the source: strip a URI down to its fragment or last path segment. -/
def getName (uri : String) : String :=
  if strContains uri '#' then lastSegment '#' uri
  else if strContains uri '/' then lastSegment '/' uri
  else uri

/-- SchemaBuilder._clean_definition_name: strip prefix/URI parts and
replace spaces and dashes with underscores. -/
def cleanDefinitionName (name : String) : String :=
  let n1 := if strContains name ':' then lastSegment ':' name else name
  let n2 := if strContains n1 '/' then lastSegment '/' n1 else n1
  let n3 := if strContains n2 '#' then lastSegment '#' n2 else n2
  String.mk (n3.toList.map (fun ch =>
    if ch = ' ' then '_' else if ch = '-' then '_' else ch))

/-! ## Ontology restrictions and `ClassRestrictionsRule` (class_rules.py) -/

/-- OntologyRestriction: either a CardinalityRestriction (restriction_type is
always "cardinality", any subset of min/max/exact may be set) or a
ValueRestriction (restriction_type in allValuesFrom / someValuesFrom /
hasValue after `__post_init__` coercion) with a raw `value` and a `filler`. -/
inductive Restriction where
  | card (propertyUri : String) (value : Json)
      (minCard maxCard exactCard : Option Int) : Restriction
  | val (propertyUri : String) (restrictionType : String)
      (value : Json) (filler : String) : Restriction

/-- Property URI of a restriction. -/
def Restriction.propertyUri : Restriction → String
  | .card p _ _ _ _ => p
  | .val p _ _ _ => p

/-- ClassRestrictionsRule._create_type_reference: XSD datatypes map to JSON
primitives, anything else becomes a `$ref` to the class definition. -/
def createTypeReference (typeUri : String) : Json :=
  if typeUri = "http://www.w3.org/2001/XMLSchema#string" then
    .obj [("type", .str "string")]
  else if typeUri = "http://www.w3.org/2001/XMLSchema#integer" then
    .obj [("type", .str "integer")]
  else if typeUri = "http://www.w3.org/2001/XMLSchema#decimal" then
    .obj [("type", .str "number")]
  else if typeUri = "http://www.w3.org/2001/XMLSchema#boolean" then
    .obj [("type", .str "boolean")]
  else if typeUri = "http://www.w3.org/2001/XMLSchema#date" then
    .obj [("type", .str "string"), ("format", .str "date")]
  else if typeUri = "http://www.w3.org/2001/XMLSchema#dateTime" then
    .obj [("type", .str "string"), ("format", .str "date-time")]
  else
    .obj [("$ref", .str ("#/definitions/" ++ getName typeUri))]

/-- Result of ClassRestrictionsRule._process_restriction: the dict
always carries "property"; "required" defaults to absent (False);
"schema" is stored only when non-empty, which is equivalent to carrying
a possibly-empty dict here (merging with an empty dict is a no-op). -/
structure RestrictionConstraint where
  property : String
  required : Bool
  schema : List (String × Json)

/-- ClassRestrictionsRule._process_restriction, translated branch by branch. -/
def processRestriction (r : Restriction) : RestrictionConstraint :=
  match r with
  | .card p _ minC maxC exactC =>
      let s0 : List (String × Json) := []
      let req0 := false
      let (req1, s1) :=
        match minC with
        | some m =>
            if m ≥ 1 then
              (true,
                if m = 1 then s0
                else setKey (setKey s0 "type" (.str "array")) "minItems" (.int m))
            else (req0, s0)
        | none => (req0, s0)
      let s2 :=
        match maxC with
        | some mx =>
            if mx = 1 then s1
            else
              setKey
                (if hasKey s1 "type" then s1 else setKey s1 "type" (.str "array"))
                "maxItems" (.int mx)
        | none => s1
      let (req3, s3) :=
        match exactC with
        | some e =>
            if e = 1 then (true, s2)
            else
              (req1,
                setKey
                  (setKey (setKey s2 "type" (.str "array")) "minItems" (.int e))
                  "maxItems" (.int e))
        | none => (req1, s2)
      ⟨getName p, req3, s3⟩
  | .val p rtype v filler =>
      if rtype = "allValuesFrom" then
        ⟨getName p, false,
          [("type", .str "array"),
           ("items", createTypeReference filler),
           ("description", .str ("Array of " ++ getName filler))]⟩
      else if rtype = "someValuesFrom" then
        ⟨getName p, true,
          [("type", .str "array"),
           ("minItems", .int 1),
           ("items", createTypeReference filler)]⟩
      else if rtype = "hasValue" then
        ⟨getName p, false, [("const", v)]⟩
      else
        -- unreachable: __post_init__ forces one of the three kinds
        ⟨getName p, false, []⟩

/-- Group a class's restrictions by property name, first-appearance key
order, appending within a group (the first pass of
_process_class_restrictions building `property_restrictions`). -/
def insertGroup (acc : List (String × List Restriction)) (k : String)
    (r : Restriction) : List (String × List Restriction) :=
  if acc.any (fun p => p.1 = k) then
    acc.map (fun p => if p.1 = k then (p.1, p.2 ++ [r]) else p)
  else acc ++ [(k, [r])]

/-- First pass of _process_class_restrictions. -/
def groupByProp (rs : List Restriction) : List (String × List Restriction) :=
  rs.foldl (fun acc r => insertGroup acc (getName r.propertyUri) r) []

/-- Second pass of _process_class_restrictions for one property group:
merge the restriction schemas with dict update, OR the required flags. -/
def mergeGroup (g : List Restriction) : List (String × Json) × Bool :=
  g.foldl
    (fun acc r =>
      let c := processRestriction r
      (updateKeys acc.1 c.schema, acc.2 || c.required))
    ([], false)

/-- Per-class result of the class_restrictions rule ("class" name,
"properties" dict and "required" list). -/
structure ClassConstraints where
  className : String
  properties : List (String × List (String × Json))
  required : List String

/-- Ontology class as carried by the model (only the fields the rules read). -/
structure OntologyClass where
  uri : String
  label : Option Json := none
  comment : Option Json := none
  superClasses : List String := []
  equivalentClasses : List String := []
  disjointWith : List String := []
  restrictions : List Restriction := []
  annotations : List (String × Json) := []

/-- ClassRestrictionsRule._process_class_restrictions: group by property,
merge each group, mark required when any merged restriction requires. -/
def processClassRestrictions (cls : OntologyClass) : Option ClassConstraints :=
  if cls.restrictions.isEmpty then none
  else
    let groups := groupByProp cls.restrictions
    let props := groups.map (fun p => (p.1, (mergeGroup p.2).1))
    let req := groups.foldl
      (fun acc p =>
        if (mergeGroup p.2).2 && !(acc.contains p.1) then acc ++ [p.1] else acc)
      []
    if props.isEmpty then none
    else some ⟨getName cls.uri, props, req⟩

/-! ## Parser retry logic (OntologyParser.parse, C8) -/

/-- OntologyParser.parse around the two `graph.parse` calls: `attempt fmt`
stands for rdflib parsing the input in format `fmt` (`none` lets rdflib
guess).  Returns the outcome together with the list of formats actually
attempted, in order.  On a parse error with format "xml" the same input is
retried once as Turtle; if that also fails the original error is re-raised;
for any other format the error propagates directly. -/
def parseWithRetry {ε γ : Type} (fmt : Option String)
    (attempt : Option String → Except ε γ) : Except ε γ × List (Option String) :=
  match attempt fmt with
  | .ok g => (.ok g, [fmt])
  | .error e =>
      if fmt = some "xml" then
        match attempt (some "turtle") with
        | .ok g => (.ok g, [fmt, some "turtle"])
        | .error _ => (.error e, [fmt, some "turtle"])
      else (.error e, [fmt])

/-! ## Association-list and grouping lemmas -/

theorem getA_nil {α : Type} (k : String) : getA ([] : List (String × α)) k = none := rfl

theorem getA_cons {α : Type} (k2 k : String) (v2 : α) (rest : List (String × α)) :
    getA ((k2, v2) :: rest) k = if k2 = k then some v2 else getA rest k := rfl

theorem getA_append_none {α : Type} {l1 : List (String × α)} (l2 : List (String × α))
    {k : String} (h : getA l1 k = none) : getA (l1 ++ l2) k = getA l2 k := by
  induction l1 with
  | nil => rfl
  | cons p rest ih =>
      obtain ⟨k2, v2⟩ := p
      by_cases hk : k2 = k
      · rw [getA_cons, if_pos hk] at h
        cases h
      · rw [getA_cons, if_neg hk] at h
        rw [List.cons_append, getA_cons, if_neg hk]
        exact ih h

theorem getA_append_some {α : Type} {l1 : List (String × α)} (l2 : List (String × α))
    {k : String} {v : α} (h : getA l1 k = some v) : getA (l1 ++ l2) k = some v := by
  induction l1 with
  | nil => cases h
  | cons p rest ih =>
      obtain ⟨k2, v2⟩ := p
      by_cases hk : k2 = k
      · rw [getA_cons, if_pos hk] at h
        rw [List.cons_append, getA_cons, if_pos hk]
        exact h
      · rw [getA_cons, if_neg hk] at h
        rw [List.cons_append, getA_cons, if_neg hk]
        exact ih h

theorem mem_of_getA {α : Type} {l : List (String × α)} {k : String} {v : α}
    (h : getA l k = some v) : (k, v) ∈ l := by
  induction l with
  | nil => cases h
  | cons p rest ih =>
      obtain ⟨k2, v2⟩ := p
      by_cases hk : k2 = k
      · subst hk
        rw [getA_cons, if_pos rfl] at h
        injection h with h2
        subst h2
        exact List.mem_cons_self _ _
      · rw [getA_cons, if_neg hk] at h
        exact List.mem_cons_of_mem _ (ih h)

theorem getA_of_mem_nodupKeys {α : Type} {l : List (String × α)} {k : String} {v : α}
    (hnd : (l.map Prod.fst).Nodup) (h : (k, v) ∈ l) : getA l k = some v := by
  induction l with
  | nil => simp at h
  | cons p rest ih =>
      obtain ⟨k2, v2⟩ := p
      simp only [List.map_cons, List.nodup_cons] at hnd
      rcases List.mem_cons.mp h with heq | hmem
      · rw [getA_cons]
        rw [Prod.mk.injEq] at heq
        rw [if_pos heq.1.symm, heq.2]
      · have hk : k2 ≠ k := by
          intro hk2
          subst hk2
          exact hnd.1 (List.mem_map.mpr ⟨(k2, v), hmem, rfl⟩)
        rw [getA_cons, if_neg hk]
        exact ih hnd.2 hmem

theorem getA_map_value {α β : Type} (l : List (String × α)) (f : α → β) (k : String) :
    getA (l.map (fun p => (p.1, f p.2))) k = Option.map f (getA l k) := by
  induction l with
  | nil => rfl
  | cons p rest ih =>
      obtain ⟨k2, v2⟩ := p
      by_cases hk : k2 = k <;> simp [getA_cons, hk, ih]

/-- Restrictions of a class that fall into the group of key `k`. -/
def filterK (rs : List Restriction) (k : String) : List Restriction :=
  rs.filter (fun r => getName r.propertyUri = k)

theorem any_key_iff {α : Type} (acc : List (String × α)) (k : String) :
    (acc.any (fun p => p.1 = k)) = true ↔ ∃ v, getA acc k = some v := by
  induction acc with
  | nil => simp [getA_nil]
  | cons p rest ih =>
      obtain ⟨k2, v2⟩ := p
      by_cases h2 : k2 = k
      · simp [List.any_cons, h2, getA_cons]
      · simp [List.any_cons, h2, getA_cons, ih]

theorem getA_map_upd_self (acc : List (String × List Restriction)) (k : String)
    (r : Restriction) :
    getA (acc.map (fun p => if p.1 = k then (p.1, p.2 ++ [r]) else p)) k
      = (getA acc k).map (fun g => g ++ [r]) := by
  induction acc with
  | nil => rfl
  | cons p rest ih =>
      obtain ⟨k2, v2⟩ := p
      by_cases h2 : k2 = k <;> simp [getA_cons, h2, ih]

theorem getA_map_upd_other (acc : List (String × List Restriction)) (k k2 : String)
    (r : Restriction) (h : k2 ≠ k) :
    getA (acc.map (fun p => if p.1 = k then (p.1, p.2 ++ [r]) else p)) k2
      = getA acc k2 := by
  induction acc with
  | nil => rfl
  | cons p rest ih =>
      obtain ⟨k3, v3⟩ := p
      by_cases h3 : k3 = k
      · subst h3
        have h32 : k3 ≠ k2 := fun he => h he.symm
        simp [getA_cons, h32, ih]
      · by_cases h4 : k3 = k2 <;> simp [getA_cons, h3, h4, h, ih]

theorem getA_insertGroup_self (acc : List (String × List Restriction)) (k : String)
    (r : Restriction) :
    getA (insertGroup acc k r) k = some ((getA acc k).getD [] ++ [r]) := by
  by_cases hany : acc.any (fun p => p.1 = k)
  · rw [insertGroup, if_pos hany, getA_map_upd_self]
    rcases (any_key_iff acc k).mp hany with ⟨g, hg⟩
    rw [hg]
    rfl
  · have hnone : getA acc k = none := by
      cases hv : getA acc k with
      | none => rfl
      | some v => exact absurd ((any_key_iff acc k).mpr ⟨v, hv⟩) hany
    rw [insertGroup, if_neg hany, getA_append_none _ hnone, hnone]
    rw [getA_cons, if_pos rfl]
    rfl

theorem getA_insertGroup_other (acc : List (String × List Restriction))
    (k k2 : String) (r : Restriction) (h : k2 ≠ k) :
    getA (insertGroup acc k r) k2 = getA acc k2 := by
  by_cases hany : acc.any (fun p => p.1 = k)
  · rw [insertGroup, if_pos hany]
    exact getA_map_upd_other acc k k2 r h
  · rw [insertGroup, if_neg hany]
    cases hv : getA acc k2 with
    | none =>
        rw [getA_append_none _ hv, getA_cons, if_neg (fun he => h he.symm)]
        rfl
    | some v => exact getA_append_some _ hv

theorem filterK_cons (r : Restriction) (rs : List Restriction) (k : String) :
    filterK (r :: rs) k =
      if getName r.propertyUri = k then r :: filterK rs k else filterK rs k := by
  by_cases h : getName r.propertyUri = k <;> simp [filterK, h]

theorem getA_groupByProp_aux (rs : List Restriction) :
    ∀ (acc : List (String × List Restriction)) (k : String),
    getA (rs.foldl (fun acc r => insertGroup acc (getName r.propertyUri) r) acc) k =
      match getA acc k with
      | some g => some (g ++ filterK rs k)
      | none => match filterK rs k with
                | [] => none
                | l => some l := by
  induction rs with
  | nil =>
      intro acc k
      cases h : getA acc k <;> simp [filterK, h]
  | cons r rs ih =>
      intro acc k
      rw [List.foldl_cons]
      rw [ih (insertGroup acc (getName r.propertyUri) r) k]
      by_cases hk : getName r.propertyUri = k
      · rw [hk, getA_insertGroup_self, filterK_cons]
        cases h : getA acc k <;> simp [h, hk]
      · rw [getA_insertGroup_other _ _ _ _ (fun he => hk he.symm), filterK_cons]
        simp [hk]

theorem getA_groupByProp (rs : List Restriction) (k : String) :
    getA (groupByProp rs) k =
      match filterK rs k with
      | [] => none
      | l => some l := by
  have := getA_groupByProp_aux rs [] k
  simpa [groupByProp, getA] using this

theorem keys_nodup_groupByProp (rs : List Restriction) :
    ((groupByProp rs).map Prod.fst).Nodup := by
  have main : ∀ (l : List Restriction) (acc : List (String × List Restriction)),
      (acc.map Prod.fst).Nodup →
      ((l.foldl (fun acc r => insertGroup acc (getName r.propertyUri) r) acc).map
        Prod.fst).Nodup := by
    intro l
    induction l with
    | nil => intro acc h; simpa using h
    | cons r rest ih =>
        intro acc h
        rw [List.foldl_cons]
        apply ih
        by_cases hany : acc.any (fun p => p.1 = getName r.propertyUri)
        · rw [insertGroup, if_pos hany]
          have hkeys : (acc.map (fun p =>
              if p.1 = getName r.propertyUri then (p.1, p.2 ++ [r]) else p)).map Prod.fst
              = acc.map Prod.fst := by
            rw [List.map_map]
            apply List.map_congr_left
            intro p _
            by_cases hp : p.1 = getName r.propertyUri <;> simp [hp]
          rw [hkeys]
          exact h
        · rw [insertGroup, if_neg hany]
          rw [List.map_append]
          simp only [List.map_cons, List.map_nil]
          apply List.Nodup.append h (List.nodup_singleton _)
          intro x hx hx2
          simp only [List.mem_singleton] at hx2
          subst hx2
          rcases List.mem_map.mp hx with ⟨p, hp, hpk⟩
          exact hany (List.any_eq_true.mpr ⟨p, hp, decide_eq_true hpk⟩)
  exact main rs [] (by simp)

theorem contains_iff_mem (l : List String) (a : String) :
    l.contains a = true ↔ a ∈ l := List.elem_iff

theorem mem_reqFold (groups : List (String × List Restriction)) :
    ∀ (acc : List String) (P : String),
    (P ∈ groups.foldl
        (fun acc p =>
          if (mergeGroup p.2).2 && !(acc.contains p.1) then acc ++ [p.1] else acc)
        acc) ↔
      P ∈ acc ∨ ∃ g, (P, g) ∈ groups ∧ (mergeGroup g).2 = true := by
  induction groups with
  | nil => intro acc P; simp
  | cons p rest ih =>
      intro acc P
      obtain ⟨k, g⟩ := p
      have hstep :
          (P ∈ (if (mergeGroup g).2 && !(acc.contains k) then acc ++ [k] else acc)) ↔
            (P ∈ acc ∨ (k = P ∧ (mergeGroup g).2 = true)) := by
        cases hflag : (mergeGroup g).2 with
        | false =>
            rw [Bool.false_and, if_neg (by simp)]
            simp
        | true =>
            cases hcont : acc.contains k with
            | true =>
                simp only [Bool.not_true, Bool.and_false]
                rw [if_neg Bool.false_ne_true]
                constructor
                · exact fun h => Or.inl h
                · rintro (h | ⟨hk, _⟩)
                  · exact h
                  · subst hk
                    exact (contains_iff_mem acc _).mp hcont
            | false =>
                simp only [Bool.not_false, Bool.and_true, if_true]
                rw [List.mem_append, List.mem_singleton]
                constructor
                · rintro (h | h)
                  · exact Or.inl h
                  · exact Or.inr ⟨h.symm, trivial⟩
                · rintro (h | ⟨hk, _⟩)
                  · exact Or.inl h
                  · exact Or.inr hk.symm
      rw [List.foldl_cons, ih, hstep]
      constructor
      · rintro ((h | ⟨hk, hf⟩) | ⟨g2, hg2, hf2⟩)
        · exact Or.inl h
        · subst hk
          exact Or.inr ⟨g, List.mem_cons_self _ _, hf⟩
        · exact Or.inr ⟨g2, List.mem_cons_of_mem _ hg2, hf2⟩
      · rintro (h | ⟨g2, hg2, hf⟩)
        · exact Or.inl (Or.inl h)
        · rcases List.mem_cons.mp hg2 with heq | hmem
          · rw [Prod.mk.injEq] at heq
            obtain ⟨hPk, hgg⟩ := heq
            subst hPk
            subst hgg
            exact Or.inl (Or.inr ⟨rfl, hf⟩)
          · exact Or.inr ⟨g2, hmem, hf⟩

theorem getA_groupByProp_of_filter {rs : List Restriction} {P : String}
    {l : List Restriction} (h : filterK rs P = l) (hne : l ≠ []) :
    getA (groupByProp rs) P = some l := by
  rw [getA_groupByProp, h]
  cases l with
  | nil => exact absurd rfl hne
  | cons a t => rfl

/-- Shape of the class_restrictions result for one property: its entry in
"properties" is the merge of exactly the restrictions grouped under it, and
it is required exactly when that merge raises the required flag. -/
theorem processClassRestrictions_spec (cls : OntologyClass) (P : String)
    (hP : filterK cls.restrictions P ≠ []) :
    ∃ c, processClassRestrictions cls = some c ∧
      c.className = getName cls.uri ∧
      getA c.properties P = some (mergeGroup (filterK cls.restrictions P)).1 ∧
      (P ∈ c.required ↔ (mergeGroup (filterK cls.restrictions P)).2 = true) := by
  have hne : cls.restrictions.isEmpty = false := by
    cases h : cls.restrictions with
    | nil => exact absurd (by simp [filterK, h]) hP
    | cons a l => simp [h]
  have hg : getA (groupByProp cls.restrictions) P = some (filterK cls.restrictions P) :=
    getA_groupByProp_of_filter rfl hP
  have hprops : getA ((groupByProp cls.restrictions).map
      (fun p => (p.1, (mergeGroup p.2).1))) P
      = some (mergeGroup (filterK cls.restrictions P)).1 := by
    have h1 := getA_map_value (groupByProp cls.restrictions)
      (fun g => (mergeGroup g).1) P
    rw [hg] at h1
    exact h1
  have hpne : ((groupByProp cls.restrictions).map
      (fun p => (p.1, (mergeGroup p.2).1))).isEmpty = false := by
    cases hm : (groupByProp cls.restrictions).map (fun p => (p.1, (mergeGroup p.2).1)) with
    | nil => rw [hm] at hprops; cases hprops
    | cons a t => simp [hm]
  refine ⟨⟨getName cls.uri,
    (groupByProp cls.restrictions).map (fun p => (p.1, (mergeGroup p.2).1)),
    (groupByProp cls.restrictions).foldl
      (fun acc p =>
        if (mergeGroup p.2).2 && !(acc.contains p.1) then acc ++ [p.1] else acc)
      []⟩, ?_, rfl, hprops, ?_⟩
  · simp only [processClassRestrictions, hne, Bool.false_eq_true, if_false, hpne]
  · rw [mem_reqFold]
    simp only [List.not_mem_nil, false_or]
    constructor
    · rintro ⟨g, hmem, hflag⟩
      have := getA_of_mem_nodupKeys (keys_nodup_groupByProp cls.restrictions) hmem
      rw [hg] at this
      injection this with h2
      rw [h2]
      exact hflag
    · intro hflag
      exact ⟨filterK cls.restrictions P, mem_of_getA hg, hflag⟩

/-- Merging a single restriction just yields its own schema and flag. -/
theorem mergeGroup_singleton (r : Restriction) :
    mergeGroup [r] = (updateKeys [] (processRestriction r).schema,
      (processRestriction r).required) := by
  simp [mergeGroup, updateKeys]

/-- C1: the cardinality-to-schema mapping of the class_restrictions rule.
Exact cardinality 1 (or max cardinality 1) keeps the property scalar — no
array type is emitted; min cardinality >= 1 alone marks the property required
and only min > 1 additionally emits an array with minItems; any max
cardinality > 1 emits an array with maxItems; exact cardinality e > 1 emits
an array with minItems = maxItems = e; and a class whose restrictions on a
property P consist of an exact-cardinality-1 restriction ends up with P
present in its properties with a scalar (typeless) schema and P in its
required list. -/
theorem claim1_cardinality_to_schema_shape :
    (∀ pu v, processRestriction (.card pu v none none (some 1))
        = ⟨getName pu, true, []⟩) ∧
    (∀ pu v, processRestriction (.card pu v none (some 1) none)
        = ⟨getName pu, false, []⟩) ∧
    (∀ pu v m, 1 ≤ m →
      (processRestriction (.card pu v (some m) none none)).required = true ∧
      (m = 1 → (processRestriction (.card pu v (some m) none none)).schema = []) ∧
      (1 < m → (processRestriction (.card pu v (some m) none none)).schema =
        [("type", Json.str "array"), ("minItems", Json.int m)])) ∧
    (∀ pu v minC mx, 1 < mx →
      getA (processRestriction (.card pu v minC (some mx) none)).schema "type"
        = some (Json.str "array") ∧
      getA (processRestriction (.card pu v minC (some mx) none)).schema "maxItems"
        = some (Json.int mx)) ∧
    (∀ pu v minC maxC e, 1 < e →
      getA (processRestriction (.card pu v minC maxC (some e))).schema "type"
        = some (Json.str "array") ∧
      getA (processRestriction (.card pu v minC maxC (some e))).schema "minItems"
        = some (Json.int e) ∧
      getA (processRestriction (.card pu v minC maxC (some e))).schema "maxItems"
        = some (Json.int e)) ∧
    (∀ (cls : OntologyClass) (pu : String) (v : Json),
      filterK cls.restrictions (getName pu) = [.card pu v none none (some 1)] →
      ∃ c s, processClassRestrictions cls = some c ∧
        getA c.properties (getName pu) = some s ∧
        getA s "type" = none ∧
        getName pu ∈ c.required) := by
  refine ⟨?_, ?_, ?_, ?_, ?_, ?_⟩
  · intro pu v
    rfl
  · intro pu v
    rfl
  · intro pu v m hm
    have hreq : m ≥ 1 := hm
    by_cases h1 : m = 1
    · subst h1
      refine ⟨rfl, fun _ => rfl, fun hlt => absurd hlt (lt_irrefl 1)⟩
    · have : (processRestriction (.card pu v (some m) none none)).schema
          = [("type", Json.str "array"), ("minItems", Json.int m)] := by
        simp [processRestriction, hreq, h1, setKey]
      refine ⟨by simp [processRestriction, hreq, h1], fun he => absurd he h1,
        fun _ => this⟩
  · intro pu v minC mx hmx
    have hne1 : ¬(mx = 1) := by
      intro h
      rw [h] at hmx
      exact lt_irrefl 1 hmx
    cases minC with
    | none =>
        constructor <;> simp [processRestriction, hne1, setKey, getA_cons, hasKey]
    | some m =>
        by_cases hm : m ≥ 1
        · by_cases h1 : m = 1
          · subst h1
            constructor <;>
              simp [processRestriction, hne1, setKey, getA_cons, hasKey]
          · constructor <;>
              simp [processRestriction, hne1, hm, h1, setKey, getA_cons, hasKey]
        · constructor <;>
            simp [processRestriction, hne1, hm, setKey, getA_cons, hasKey]
  · intro pu v minC maxC e he
    have hne1 : ¬(e = 1) := by
      intro h
      rw [h] at he
      exact lt_irrefl 1 he
    have hshape : (processRestriction (.card pu v minC maxC (some e))).schema
        = setKey (setKey (setKey
            ((processRestriction (.card pu v minC maxC none)).schema)
            "type" (Json.str "array")) "minItems" (Json.int e)) "maxItems"
            (Json.int e) := by
      simp [processRestriction, hne1]
    rw [hshape]
    refine ⟨?_, ?_, ?_⟩
    · rw [getA_setKey_other _ _ _ _ (by simp), getA_setKey_other _ _ _ _ (by simp),
        getA_setKey_self]
    · rw [getA_setKey_other _ _ _ _ (by simp), getA_setKey_self]
    · rw [getA_setKey_self]
  · intro cls pu v hP
    have hne : filterK cls.restrictions (getName pu) ≠ [] := by
      rw [hP]
      exact List.cons_ne_nil _ _
    obtain ⟨c, hc, _, hprop, hreq⟩ := processClassRestrictions_spec cls (getName pu) hne
    rw [hP, mergeGroup_singleton] at hprop hreq
    refine ⟨c, [], hc, ?_, rfl, ?_⟩
    · simpa using hprop
    · exact hreq.mpr (by rfl)

/-- C1 witness: instantiation of every conjunct at concrete inputs. -/
theorem claim1_witness :
    (processRestriction (.card "p" .null none none (some 1)) = ⟨"p", true, []⟩) ∧
    (processRestriction (.card "p" .null none (some 1) none) = ⟨"p", false, []⟩) ∧
    ((1:Int) ≤ 3 ∧
      (processRestriction (.card "p" .null (some 3) none none)).required = true) ∧
    ((1:Int) < 4 ∧
      getA (processRestriction (.card "p" .null none (some 4) none)).schema "maxItems"
        = some (Json.int 4)) ∧
    ((1:Int) < 2 ∧
      getA (processRestriction (.card "p" .null none none (some 2))).schema "minItems"
        = some (Json.int 2)) ∧
    (∃ c s, processClassRestrictions
        ⟨"C", none, none, [], [], [], [.card "p" .null none none (some 1)], []⟩
        = some c ∧
      getA c.properties "p" = some s ∧ getA s "type" = none ∧ "p" ∈ c.required) := by
  refine ⟨claim1_cardinality_to_schema_shape.1 "p" .null,
    claim1_cardinality_to_schema_shape.2.1 "p" .null,
    ⟨by norm_num, (claim1_cardinality_to_schema_shape.2.2.1 "p" .null 3 (by norm_num)).1⟩,
    ⟨by norm_num, (claim1_cardinality_to_schema_shape.2.2.2.1 "p" .null none 4 (by norm_num)).2⟩,
    ⟨by norm_num, (claim1_cardinality_to_schema_shape.2.2.2.2.1 "p" .null none none 2 (by norm_num)).2.1⟩,
    ?_⟩
  have := claim1_cardinality_to_schema_shape.2.2.2.2.2
    ⟨"C", none, none, [], [], [], [.card "p" .null none none (some 1)], []⟩
    "p" .null (by rfl)
  simpa using this

/-- C2: value restrictions in the class_restrictions rule.  A someValuesFrom
restriction on P with filler F makes P required with schema exactly
array + minItems 1 + items reference; an allValuesFrom restriction alone
yields an array whose items reference the filler, with P not required; a
hasValue restriction yields a schema carrying const = the restriction value. -/
theorem claim2_value_restrictions_to_schema :
    (∀ (cls : OntologyClass) (pu : String) (v : Json) (filler : String),
      filterK cls.restrictions (getName pu) = [.val pu "someValuesFrom" v filler] →
      ∃ c, processClassRestrictions cls = some c ∧
        getA c.properties (getName pu) =
          some [("type", Json.str "array"), ("minItems", Json.int 1),
                ("items", createTypeReference filler)] ∧
        getName pu ∈ c.required) ∧
    (∀ (cls : OntologyClass) (pu : String) (v : Json) (filler : String),
      filterK cls.restrictions (getName pu) = [.val pu "allValuesFrom" v filler] →
      ∃ c s, processClassRestrictions cls = some c ∧
        getA c.properties (getName pu) = some s ∧
        getA s "type" = some (Json.str "array") ∧
        getA s "items" = some (createTypeReference filler) ∧
        getName pu ∉ c.required) ∧
    (∀ pu v filler,
      (processRestriction (.val pu "hasValue" v filler)).schema = [("const", v)]) := by
  refine ⟨?_, ?_, ?_⟩
  · intro cls pu v filler hP
    have hne : filterK cls.restrictions (getName pu) ≠ [] := by
      rw [hP]; exact List.cons_ne_nil _ _
    obtain ⟨c, hc, _, hprop, hreq⟩ := processClassRestrictions_spec cls (getName pu) hne
    rw [hP, mergeGroup_singleton] at hprop hreq
    refine ⟨c, hc, ?_, hreq.mpr (by rfl)⟩
    rw [hprop]
    simp [processRestriction, updateKeys, setKey]
  · intro cls pu v filler hP
    have hne : filterK cls.restrictions (getName pu) ≠ [] := by
      rw [hP]; exact List.cons_ne_nil _ _
    obtain ⟨c, hc, _, hprop, hreq⟩ := processClassRestrictions_spec cls (getName pu) hne
    rw [hP, mergeGroup_singleton] at hprop hreq
    have hs : updateKeys []
        (processRestriction (.val pu "allValuesFrom" v filler)).schema
        = [("type", Json.str "array"),
           ("items", createTypeReference filler),
           ("description", Json.str ("Array of " ++ getName filler))] := by
      simp [processRestriction, updateKeys, setKey]
    refine ⟨c, _, hc, by rw [hprop, hs], ?_, ?_, ?_⟩
    · simp [getA_cons]
    · simp [getA_cons]
    · intro hmem
      have := hreq.mp hmem
      simp [processRestriction] at this
  · intro pu v filler
    rfl

/-- C2 witness: instantiation of every conjunct at concrete inputs. -/
theorem claim2_witness :
    (∃ c, processClassRestrictions
        ⟨"C", none, none, [], [], [],
          [.val "p" "someValuesFrom" (.str "F") "F"], []⟩ = some c ∧
      getA c.properties "p" =
        some [("type", Json.str "array"), ("minItems", Json.int 1),
              ("items", createTypeReference "F")] ∧
      "p" ∈ c.required) ∧
    (∃ c s, processClassRestrictions
        ⟨"D", none, none, [], [], [],
          [.val "q" "allValuesFrom" (.str "F") "F"], []⟩ = some c ∧
      getA c.properties "q" = some s ∧
      getA s "type" = some (Json.str "array") ∧
      getA s "items" = some (createTypeReference "F") ∧
      "q" ∉ c.required) ∧
    ((processRestriction (.val "r" "hasValue" (.str "42") "F")).schema
      = [("const", Json.str "42")]) := by
  refine ⟨?_, ?_, claim2_value_restrictions_to_schema.2.2 "r" (.str "42") "F"⟩
  · have := claim2_value_restrictions_to_schema.1
      ⟨"C", none, none, [], [], [], [.val "p" "someValuesFrom" (.str "F") "F"], []⟩
      "p" (.str "F") "F" (by rfl)
    simpa using this
  · have := claim2_value_restrictions_to_schema.2.1
      ⟨"D", none, none, [], [], [], [.val "q" "allValuesFrom" (.str "F") "F"], []⟩
      "q" (.str "F") "F" (by rfl)
    simpa using this

/-- C8: if the declared or detected format is xml and parsing fails, the
input is retried exactly once as Turtle (the attempted-format trace is
exactly [xml, turtle]); a successful retry is used, a failed retry
re-raises the original error; for any other format the error propagates
without a retry (trace is just the one format). -/
theorem claim8_xml_turtle_fallback {ε γ : Type} (fmt : Option String)
    (attempt : Option String → Except ε γ) :
    (∀ g, attempt fmt = .ok g → parseWithRetry fmt attempt = (.ok g, [fmt])) ∧
    (∀ e, attempt fmt = .error e → fmt = some "xml" →
      (∀ g, attempt (some "turtle") = .ok g →
        parseWithRetry fmt attempt = (.ok g, [fmt, some "turtle"])) ∧
      (∀ e2, attempt (some "turtle") = .error e2 →
        parseWithRetry fmt attempt = (.error e, [fmt, some "turtle"]))) ∧
    (∀ e, attempt fmt = .error e → fmt ≠ some "xml" →
      parseWithRetry fmt attempt = (.error e, [fmt])) := by
  refine ⟨?_, ?_, ?_⟩
  · intro g hg
    rw [parseWithRetry, hg]
  · intro e he hx
    subst hx
    constructor
    · intro g hg
      simp [parseWithRetry, he, hg]
    · intro e2 he2
      simp [parseWithRetry, he, he2]
  · intro e he hx
    simp [parseWithRetry, he, hx]

/-- C8 witness: concrete attempts exercising every branch. -/
theorem claim8_witness :
    parseWithRetry (some "turtle")
        (fun _ => (.ok 5 : Except Nat Nat)) = (.ok 5, [some "turtle"]) ∧
    parseWithRetry (some "xml")
        (fun f => if f = some "turtle" then (.ok 7 : Except Nat Nat) else .error 0)
      = (.ok 7, [some "xml", some "turtle"]) ∧
    parseWithRetry (some "xml")
        (fun _ => (.error 3 : Except Nat Nat)) = (.error 3, [some "xml", some "turtle"]) ∧
    parseWithRetry (some "n3")
        (fun _ => (.error 9 : Except Nat Nat)) = (.error 9, [some "n3"]) := by
  refine ⟨?_, ?_, ?_, ?_⟩
  · exact (claim8_xml_turtle_fallback (some "turtle") _).1 5 rfl
  · exact ((claim8_xml_turtle_fallback (some "xml") _).2.1 0 (by rfl) rfl).1 7 (by rfl)
  · exact ((claim8_xml_turtle_fallback (some "xml") _).2.1 3 rfl rfl).2 3 rfl
  · exact (claim8_xml_turtle_fallback (some "n3") _).2.2 9 rfl (by simp)

/-! ## ABoxToJSONConverter._has_circular_reference (abox_to_json.py, C9) -/

/-- Check of one property schema inside _has_circular_reference: a direct
`$ref` back to `typeName`, or an array-items `$ref` back to `typeName`.
(Property schemas emitted by the transformer are always dicts; a non-dict
value cannot carry the `$ref` key.) -/
def propRefHit (pv : Json) (typeName : String) : Bool :=
  match pv with
  | .obj ps =>
      (match getA ps "$ref" with
       | some (.str s) => lastSegment '/' s = typeName
       | _ => false)
      ||
      (match getA ps "items" with
       | some (.obj its) =>
           (match getA its "$ref" with
            | some (.str s) => lastSegment '/' s = typeName
            | _ => false)
       | _ => false)
  | _ => false

/-- Scan of the "properties" block of a definition for a self reference
(the first loop of _has_circular_reference). -/
def propsSelfRef (classDef : Json) (typeName : String) : Bool :=
  match classDef with
  | .obj kvs =>
      match getA kvs "properties" with
      | some (.obj props) => props.any (fun p => propRefHit p.2 typeName)
      | _ => false
  | _ => false

/-- Names referenced from the "allOf" block of a definition (items without
a `$ref` are skipped, as in the source's second loop). -/
def allOfRefs (classDef : Json) : List String :=
  match classDef with
  | .obj kvs =>
      match getA kvs "allOf" with
      | some (.arr items) =>
          items.filterMap (fun item =>
            match item with
            | .obj ikvs =>
                match getA ikvs "$ref" with
                | some (.str s) => some (lastSegment '/' s)
                | _ => none
            | _ => none)
      | _ => []
  | _ => []

/-- ABoxToJSONConverter._has_circular_reference with explicit fuel: a
visited type is a cycle; an unknown type is not circular; otherwise the
type is added to the visited set, its own properties are scanned for a
self `$ref` (direct or via array items), and the allOf parents are
checked recursively, each with its own copy of the visited set.  The fuel
only bounds the recursion depth; the top-level entry supplies more fuel
than any visited-set chain can consume, so the zero-fuel branch is
unreachable from `hasCircularReference`. -/
def hasCircAux (defs : List (String × Json)) : Nat → String → List String → Bool
  | 0, _, _ => false
  | fuel + 1, typeName, visited =>
      if visited.contains typeName then true
      else
        match getA defs typeName with
        | none => false
        | some classDef =>
            if propsSelfRef classDef typeName then true
            else (allOfRefs classDef).any
              (fun c => hasCircAux defs fuel c (typeName :: visited))

/-- Top-level entry of _has_circular_reference (visited starts empty). -/
def hasCircularReference (defs : List (String × Json)) (typeName : String) : Bool :=
  hasCircAux defs (defs.length + 1) typeName []

theorem hasCircAux_false_of_ranked (defs : List (String × Json)) (L : List String)
    (rank : String → Nat)
    (hsafe : ∀ x ∈ L, ∀ d, getA defs x = some d →
      propsSelfRef d x = false ∧ (∀ c ∈ allOfRefs d, c ∈ L ∧ rank c < rank x)) :
    ∀ (fuel : Nat) (T : String) (visited : List String), T ∈ L →
      (∀ v ∈ visited, rank T < rank v) → rank T < fuel →
      hasCircAux defs fuel T visited = false := by
  intro fuel
  induction fuel with
  | zero =>
      intro T visited _ _ hf
      exact absurd hf (Nat.not_lt_zero _)
  | succ n ih =>
      intro T visited hT hvis hf
      have hnotvis : visited.contains T = false := by
        cases hc : visited.contains T with
        | false => rfl
        | true =>
            have := hvis T ((contains_iff_mem visited T).mp hc)
            exact absurd this (lt_irrefl _)
      rw [hasCircAux, hnotvis]
      simp only [Bool.false_eq_true, if_false]
      cases hd : getA defs T with
      | none => rfl
      | some d =>
          dsimp only
          obtain ⟨hself, hrefs⟩ := hsafe T hT d hd
          rw [hself]
          simp only [Bool.false_eq_true, if_false]
          rw [List.any_eq_false]
          intro c hc
          obtain ⟨hcL, hcr⟩ := hrefs c hc
          rw [Bool.not_eq_true]
          apply ih c (T :: visited) hcL
          · intro v hv
            rcases List.mem_cons.mp hv with hv | hv
            · subst hv; exact hcr
            · exact lt_trans hcr (hvis v hv)
          · exact lt_of_lt_of_le hcr (Nat.lt_succ_iff.mp hf)

/-- C9: _has_circular_reference returns true for every type whose own
definition has a property whose `$ref` (directly or via array items) points
back to that same type name, and false for a type whose properties and
allOf ancestry contain no reference back to themselves (witnessed by a
ranked, self-reference-free ancestry set). -/
theorem claim9_circular_reference_detection :
    (∀ (defs : List (String × Json)) (T : String)
        (kvs props pobj : List (String × Json)) (P : String),
      getA defs T = some (.obj kvs) →
      getA kvs "properties" = some (.obj props) →
      getA props P = some (.obj pobj) →
      ((∃ r, getA pobj "$ref" = some (.str r) ∧ lastSegment '/' r = T) ∨
       (∃ its r, getA pobj "items" = some (.obj its) ∧
          getA its "$ref" = some (.str r) ∧ lastSegment '/' r = T)) →
      hasCircularReference defs T = true) ∧
    (∀ (defs : List (String × Json)) (T : String) (L : List String)
        (rank : String → Nat),
      T ∈ L →
      (∀ x ∈ L, rank x ≤ defs.length) →
      (∀ x ∈ L, ∀ d, getA defs x = some d →
        propsSelfRef d x = false ∧
        (∀ c ∈ allOfRefs d, c ∈ L ∧ rank c < rank x)) →
      hasCircularReference defs T = false) := by
  constructor
  · intro defs T kvs props pobj P hdef hprops hP hhit
    rw [hasCircularReference, hasCircAux]
    simp only [List.contains_nil, Bool.false_eq_true, if_false]
    rw [hdef]
    have hself : propsSelfRef (.obj kvs) T = true := by
      rw [propsSelfRef, hprops]
      apply List.any_eq_true.mpr
      refine ⟨(P, .obj pobj), mem_of_getA hP, ?_⟩
      rcases hhit with ⟨r, hr, hlast⟩ | ⟨its, r, hits, hr, hlast⟩
      · simp [propRefHit, hr, hlast]
      · simp [propRefHit, hits, hr, hlast]
    dsimp only
    rw [hself]
    rfl
  · intro defs T L rank hT hbound hsafe
    exact hasCircAux_false_of_ranked defs L rank hsafe (defs.length + 1) T [] hT
      (by intro v hv; cases hv)
      (Nat.lt_succ_of_le (hbound T hT))

/-- C9 witness: a Formation-style self-referential schema is detected and
an acyclic Person/Agent schema is not. -/
theorem claim9_witness :
    hasCircularReference
      [("Formation", .obj
        [("type", .str "object"),
         ("properties", .obj
           [("composedOf", .obj
             [("type", .str "array"),
              ("items", .obj [("$ref", .str "#/definitions/Formation")])])])])]
      "Formation" = true ∧
    hasCircularReference
      [("Person", .obj
        [("allOf", .arr [.obj [("$ref", .str "#/definitions/Agent")]]),
         ("properties", .obj
           [("age", .obj [("type", .str "integer")])])]),
       ("Agent", .obj
        [("properties", .obj
           [("name", .obj [("type", .str "string")])])])]
      "Person" = false := by
  constructor
  · exact claim9_circular_reference_detection.1 _ "Formation" _ _ _ "composedOf"
      rfl rfl rfl
      (Or.inr ⟨[("$ref", .str "#/definitions/Formation")],
        "#/definitions/Formation", rfl, rfl, rfl⟩)
  · apply claim9_circular_reference_detection.2 _ "Person" ["Person", "Agent"]
      (fun s => if s = "Person" then 1 else 0)
    · exact List.mem_cons_self _ _
    · intro x hx
      rcases List.mem_cons.mp hx with h | h
      · subst h; simp
      · rcases List.mem_cons.mp h with h | h
        · subst h; simp
        · cases h
    · intro x hx d hd
      rcases List.mem_cons.mp hx with h | h
      · subst h
        rw [show getA
            [("Person", Json.obj
              [("allOf", .arr [.obj [("$ref", .str "#/definitions/Agent")]]),
               ("properties", .obj [("age", .obj [("type", .str "integer")])])]),
             ("Agent", Json.obj
              [("properties", .obj [("name", .obj [("type", .str "string")])])])]
            "Person" = some (Json.obj
              [("allOf", .arr [.obj [("$ref", .str "#/definitions/Agent")]]),
               ("properties", .obj [("age", .obj [("type", .str "integer")])])])
          from rfl] at hd
        injection hd with hd
        subst hd
        refine ⟨rfl, ?_⟩
        intro c hc
        rw [show allOfRefs (Json.obj
            [("allOf", .arr [.obj [("$ref", .str "#/definitions/Agent")]]),
             ("properties", .obj [("age", .obj [("type", .str "integer")])])])
            = ["Agent"] from rfl] at hc
        rcases List.mem_cons.mp hc with h | h
        · subst h
          exact ⟨List.mem_cons_of_mem _ (List.mem_cons_self _ _), by simp⟩
        · cases h
      · rcases List.mem_cons.mp h with h | h
        · subst h
          rw [show getA
              [("Person", Json.obj
                [("allOf", .arr [.obj [("$ref", .str "#/definitions/Agent")]]),
                 ("properties", .obj [("age", .obj [("type", .str "integer")])])]),
               ("Agent", Json.obj
                [("properties", .obj [("name", .obj [("type", .str "string")])])])]
              "Agent" = some (Json.obj
                [("properties", .obj [("name", .obj [("type", .str "string")])])])
            from rfl] at hd
          injection hd with hd
          subst hd
          refine ⟨rfl, ?_⟩
          intro c hc
          cases hc
        · cases h

/-! ## SchemaBuilder (builder.py) -/

/-- Python truthiness of a JSON value (empty containers, empty strings,
zero, False and None are falsy). -/
def truthy (j : Json) : Bool :=
  match j with
  | .null => false
  | .str s => !s.isEmpty
  | .int n => !(n == 0)
  | .bool b => b
  | .arr xs => !xs.isEmpty
  | .obj kvs => !kvs.isEmpty

/-- Python `s.startswith(pre)`. -/
def strStartsWith (s pre : String) : Bool := pre.toList.isPrefixOf s.toList

/-- Python `s[n:]`. -/
def strDrop (s : String) (n : Nat) : String := String.mk (s.toList.drop n)

/-- SchemaBuilder state: the root dict plus the separately accumulated
definitions, root properties, required list and examples. -/
structure SchemaBuilder where
  schema : List (String × Json)
  definitions : List (String × Json)
  properties : List (String × Json)
  required : List String
  examples : List Json

/-- Freshly constructed (or reset) SchemaBuilder. -/
def initBuilder : SchemaBuilder :=
  ⟨[("$schema", .str "http://json-schema.org/draft-07/schema#")], [], [], [], []⟩

/-- SchemaBuilder.add_to_root. -/
def addToRoot (b : SchemaBuilder) (k : String) (v : Json) : SchemaBuilder :=
  { b with schema := setKey b.schema k v }

/-- SchemaBuilder.add_definition (the name is cleaned first). -/
def addDefinition (b : SchemaBuilder) (name : String) (schema : Json) : SchemaBuilder :=
  { b with definitions := setKey b.definitions (cleanDefinitionName name) schema }

/-- SchemaBuilder.add_property_to_class: mutates the "properties" dict of an
already existing class definition; when the definition does not exist the
call does nothing.  (A definition carrying a non-dict body or a non-dict
"properties" entry would raise in Python; the builder only ever stores
dicts there.) -/
def addPropertyToClass (b : SchemaBuilder) (className propName : String)
    (propSchema : Json) : SchemaBuilder :=
  let clean := cleanDefinitionName className
  match getA b.definitions clean with
  | none => b
  | some defn =>
      match defn with
      | .obj kvs =>
          let kvs2 := if hasKey kvs "properties" then kvs
                      else setKey kvs "properties" (.obj [])
          match getA kvs2 "properties" with
          | some (.obj props) =>
              let newdefs := setKey b.definitions clean
                (.obj (setKey kvs2 "properties"
                  (.obj (setKey props propName propSchema))))
              { b with definitions := newdefs }
          | _ => b
      | _ => b

/-- Python `x == pn` against a JSON value (list membership of a string in
a JSON array compares elementwise; non-string elements never equal a
string). -/
def isStrEq (pn : String) (j : Json) : Bool :=
  match j with
  | .str s => s = pn
  | _ => false

/-- SchemaBuilder.add_required_to_class: appends to the "required" list of
an already existing class definition; otherwise does nothing. -/
def addRequiredToClass (b : SchemaBuilder) (className propName : String) :
    SchemaBuilder :=
  let clean := cleanDefinitionName className
  match getA b.definitions clean with
  | none => b
  | some defn =>
      match defn with
      | .obj kvs =>
          let kvs2 := if hasKey kvs "required" then kvs
                      else setKey kvs "required" (.arr [])
          match getA kvs2 "required" with
          | some (.arr reqs) =>
              if reqs.any (isStrEq propName) then b
              else
                let newdefs := setKey b.definitions clean
                  (.obj (setKey kvs2 "required" (.arr (reqs ++ [.str propName]))))
                { b with definitions := newdefs }
          | _ => b
      | _ => b

/-- First step of SchemaBuilder.build: store the definitions. -/
def buildStep1 (b : SchemaBuilder) : List (String × Json) :=
  if b.definitions.isEmpty then b.schema
  else setKey b.schema "definitions" (.obj b.definitions)

/-- Second step of SchemaBuilder.build: root properties/required, or the
closed empty-object default when only definitions exist. -/
def buildStep2 (b : SchemaBuilder) (s : List (String × Json)) :
    List (String × Json) :=
  if !b.properties.isEmpty then
    let s := setKey s "type" (.str "object")
    let s := setKey s "properties" (.obj b.properties)
    if b.required.isEmpty then s
    else setKey s "required" (.arr (b.required.map Json.str))
  else if !b.definitions.isEmpty then
    match getA s "type" with
    | some t => if truthy t then s
                else setKey (setKey s "type" (.str "object"))
                  "additionalProperties" (.bool false)
    | none => setKey (setKey s "type" (.str "object"))
        "additionalProperties" (.bool false)
  else s

/-- Third step of SchemaBuilder.build: examples. -/
def buildStep3 (b : SchemaBuilder) (s : List (String × Json)) :
    List (String × Json) :=
  if b.examples.isEmpty then s else setKey s "examples" (.arr b.examples)

/-- SchemaBuilder.build, returning the key/value pairs of the final root
document. -/
def buildRoot (b : SchemaBuilder) : List (String × Json) :=
  let s := buildStep3 b (buildStep2 b (buildStep1 b))
  if !(hasKey s "type") && !(hasKey s "definitions") then
    setKey s "type" (.str "object")
  else s

/-- SchemaBuilder.build as a JSON document. -/
def build (b : SchemaBuilder) : Json := .obj (buildRoot b)

/-! ## TransformationEngine._process_rule_result (engine.py) -/

/-- One class_restrictions entry (a dict with "class", "properties",
"required") dispatched onto the builder. -/
def processClassRestrictionResult (item : Json) (b : SchemaBuilder) : SchemaBuilder :=
  match item with
  | .obj kvs =>
      if hasKey kvs "class" then
        match getA kvs "class" with
        | some (.str className) =>
            let b :=
              match getA kvs "properties" with
              | some (.obj props) =>
                  props.foldl (fun b p => addPropertyToClass b className p.1 p.2) b
              | _ => b
            match getA kvs "required" with
            | some (.arr reqs) =>
                reqs.foldl (fun b r =>
                  match r with
                  | .str pn => addRequiredToClass b className pn
                  | _ => b) b
            | _ => b
        | _ => b
      else b
  | _ => b

/-- Root keys the ontology_metadata branch is allowed to write. -/
def validRootProperties : List String :=
  ["title", "description", "$id", "$comment", "$defs", "additionalProperties", "type"]

/-- TransformationEngine._process_rule_result: the rule-id-specific merge
policy.  Rule ids without a branch (among them union_to_anyOf and
intersection_to_allOf) leave the builder untouched. -/
def processRuleResult (ruleId : String) (result : Json) (b : SchemaBuilder) :
    SchemaBuilder :=
  if ruleId = "class_to_object" then
    match result with
    | .arr schemas =>
        schemas.foldl (fun b s =>
          match s with
          | .obj kvs =>
              if hasKey kvs "title" then
                match getA kvs "title" with
                | some (.str t) => addDefinition b t s
                | _ => b
              else b
          | _ => b) b
    | .obj kvs =>
        match getA kvs "definitions" with
        | some (.obj defs) => defs.foldl (fun b p => addDefinition b p.1 p.2) b
        | _ => b
    | _ => b
  else if ruleId = "class_restrictions" then
    match result with
    | .arr items => items.foldl (fun b item => processClassRestrictionResult item b) b
    | .obj kvs =>
        if hasKey kvs "class" then processClassRestrictionResult (.obj kvs) b else b
    | _ => b
  else if ruleId = "class_hierarchy" then
    match result with
    | .obj kvs =>
        match getA kvs "hierarchy_updates" with
        | some (.obj updates) =>
            updates.foldl (fun b p =>
              let clean := cleanDefinitionName p.1
              match getA b.definitions clean with
              | some (.obj defkvs) =>
                  match p.2 with
                  | .obj hkvs =>
                      let newdefs := setKey b.definitions clean
                        (.obj (hkvs.foldl (fun acc q => setKey acc q.1 q.2) defkvs))
                      { b with definitions := newdefs }
                  | _ => b
              | some _ => b
              | none => addDefinition b p.1 p.2) b
        | _ => b
    | _ => b
  else if ruleId = "labels_to_titles" then
    match result with
    | .obj kvs =>
        match getA kvs "title_updates" with
        | some (.obj updates) =>
            updates.foldl (fun b p =>
              if strStartsWith p.1 "class:" then
                let clean := cleanDefinitionName (strDrop p.1 6)
                match getA b.definitions clean with
                | some (.obj defkvs) =>
                    match p.2 with
                    | .obj tkvs =>
                        if hasKey tkvs "title" then
                          match getA tkvs "title" with
                          | some t =>
                              let newdefs := setKey b.definitions clean
                                (.obj (setKey defkvs "title" t))
                              { b with definitions := newdefs }
                          | none => b
                        else b
                    | _ => b
                | _ => b
              else b) b
        | _ => b
    | _ => b
  else if ruleId = "enumeration_to_enum" then
    match result with
    | .obj kvs =>
        match getA kvs "enum_updates" with
        | some (.obj updates) => updates.foldl (fun b p => addDefinition b p.1 p.2) b
        | _ => b
    | _ => b
  else if ruleId = "ontology_metadata" then
    match result with
    | .obj kvs =>
        kvs.foldl (fun b p =>
          if validRootProperties.contains p.1 then addToRoot b p.1 p.2 else b) b
    | _ => b
  else if ruleId = "object_property" || ruleId = "datatype_property" then
    match result with
    | .arr items =>
        items.foldl (fun b item =>
          match item with
          | .obj kvs =>
              if hasKey kvs "class" && hasKey kvs "property" then
                match getA kvs "class", getA kvs "property" with
                | some (.str className), some (.obj pkvs) =>
                    match getA pkvs "name", getA pkvs "schema" with
                    | some (.str pname), some pschema =>
                        addPropertyToClass b className pname pschema
                    | _, _ => b
                | _, _ => b
              else b
          | _ => b) b
    | _ => b
  else b

/-! ## C3: where class_restrictions results land in the builder -/

theorem setKey_ne_nil {α : Type} (l : List (String × α)) (k : String) (v : α) :
    (setKey l k v).isEmpty = false := by
  cases l with
  | nil => rfl
  | cons p rest =>
      obtain ⟨k2, v2⟩ := p
      by_cases h : k2 = k <;> simp [setKey, h]

theorem getA_buildRoot_definitions (b : SchemaBuilder)
    (h : b.definitions.isEmpty = false) :
    getA (buildRoot b) "definitions" = some (.obj b.definitions) := by
  have h1 : getA (buildStep1 b) "definitions" = some (.obj b.definitions) := by
    rw [buildStep1, h]
    simp only [Bool.false_eq_true, if_false]
    exact getA_setKey_self _ _ _
  have h2 : getA (buildStep2 b (buildStep1 b)) "definitions"
      = some (.obj b.definitions) := by
    rw [buildStep2]
    cases hp : b.properties.isEmpty with
    | true =>
        simp only [hp, Bool.not_true, Bool.false_eq_true, if_false, h,
          Bool.not_false, if_true]
        cases ht : getA (buildStep1 b) "type" with
        | some t =>
            dsimp only
            cases htr : truthy t with
            | true => simpa [htr] using h1
            | false =>
                simp only [Bool.false_eq_true, if_false]
                rw [getA_setKey_other _ _ _ _ (by simp),
                  getA_setKey_other _ _ _ _ (by simp)]
                exact h1
        | none =>
            dsimp only
            rw [getA_setKey_other _ _ _ _ (by simp),
              getA_setKey_other _ _ _ _ (by simp)]
            exact h1
    | false =>
        simp only [hp, Bool.not_false, if_true]
        cases hr : b.required.isEmpty with
        | true =>
            simp only [if_true]
            rw [getA_setKey_other _ _ _ _ (by simp),
              getA_setKey_other _ _ _ _ (by simp)]
            exact h1
        | false =>
            simp only [Bool.false_eq_true, if_false]
            rw [getA_setKey_other _ _ _ _ (by simp),
              getA_setKey_other _ _ _ _ (by simp),
              getA_setKey_other _ _ _ _ (by simp)]
            exact h1
  have h3 : getA (buildStep3 b (buildStep2 b (buildStep1 b))) "definitions"
      = some (.obj b.definitions) := by
    rw [buildStep3]
    cases he : b.examples.isEmpty with
    | true => simpa using h2
    | false =>
        simp only [Bool.false_eq_true, if_false]
        rw [getA_setKey_other _ _ _ _ (by simp)]
        exact h2
  rw [buildRoot]
  have hk : hasKey (buildStep3 b (buildStep2 b (buildStep1 b))) "definitions" = true :=
    (hasKey_iff_getA _ _).mpr ⟨_, h3⟩
  rw [hk]
  simp only [Bool.not_true, Bool.and_false, Bool.false_eq_true, if_false]
  exact h3

/-- C3 counterexample: dispatching a class_restrictions result for a class
whose definition does not exist leaves the builder untouched — no bare
definition is created, the properties and required entries are dropped, and
the built schema has no definitions at all. -/
theorem claim3_counterexample_no_bare_definition :
    processRuleResult "class_restrictions"
      (.obj [("class", .str "C"),
             ("properties", .obj [("p", .obj [])]),
             ("required", .arr [.str "p"])])
      initBuilder = initBuilder ∧
    hasKey (buildRoot (processRuleResult "class_restrictions"
      (.obj [("class", .str "C"),
             ("properties", .obj [("p", .obj [])]),
             ("required", .arr [.str "p"])])
      initBuilder)) "definitions" = false := by
  constructor <;> rfl

/-- C3 amended: the engine's class_restrictions dispatch attaches
properties and required entries only onto an already existing class
definition (by clean name); when the target definition does not exist the
builder is left unchanged (the fragment is silently dropped), and when it
does exist the attached property lands in the definition's "properties"
dict and survives into the built schema. -/
theorem claim3_amended_attach_only_existing :
    (∀ (b : SchemaBuilder) (cn pn : String) (ps : Json),
      getA b.definitions (cleanDefinitionName cn) = none →
      addPropertyToClass b cn pn ps = b ∧ addRequiredToClass b cn pn = b) ∧
    (∀ (b : SchemaBuilder) (cn pn : String) (ps : Json)
        (kvs props : List (String × Json)),
      getA b.definitions (cleanDefinitionName cn) = some (.obj kvs) →
      getA kvs "properties" = some (.obj props) →
      (addPropertyToClass b cn pn ps).definitions
        = setKey b.definitions (cleanDefinitionName cn)
            (.obj (setKey kvs "properties" (.obj (setKey props pn ps)))) ∧
      getA (buildRoot (addPropertyToClass b cn pn ps)) "definitions"
        = some (.obj (setKey b.definitions (cleanDefinitionName cn)
            (.obj (setKey kvs "properties" (.obj (setKey props pn ps))))))) ∧
    (∀ (b : SchemaBuilder) (cn pn : String) (kvs : List (String × Json))
        (reqs : List Json),
      getA b.definitions (cleanDefinitionName cn) = some (.obj kvs) →
      getA kvs "required" = some (.arr reqs) →
      reqs.any (isStrEq pn) = false →
      (addRequiredToClass b cn pn).definitions
        = setKey b.definitions (cleanDefinitionName cn)
            (.obj (setKey kvs "required" (.arr (reqs ++ [.str pn]))))) := by
  refine ⟨?_, ?_, ?_⟩
  · intro b cn pn ps h
    constructor
    · rw [addPropertyToClass, h]
    · rw [addRequiredToClass, h]
  · intro b cn pn ps kvs props hdef hprops
    have hk : hasKey kvs "properties" = true :=
      (hasKey_iff_getA _ _).mpr ⟨_, hprops⟩
    have hdefs : (addPropertyToClass b cn pn ps).definitions
        = setKey b.definitions (cleanDefinitionName cn)
            (.obj (setKey kvs "properties" (.obj (setKey props pn ps)))) := by
      rw [addPropertyToClass, hdef]
      dsimp only
      rw [hk]
      simp only [if_true]
      rw [hprops]
    refine ⟨hdefs, ?_⟩
    rw [getA_buildRoot_definitions _ (by rw [hdefs]; exact setKey_ne_nil _ _ _),
      hdefs]
  · intro b cn pn kvs reqs hdef hreqs hnotin
    have hk : hasKey kvs "required" = true :=
      (hasKey_iff_getA _ _).mpr ⟨_, hreqs⟩
    rw [addRequiredToClass, hdef]
    dsimp only
    rw [hk]
    simp only [if_true]
    rw [hreqs]
    dsimp only
    rw [hnotin]
    simp only [Bool.false_eq_true, if_false]

/-- C3 amended witness: concrete builders exercising the dropped and the
attached case. -/
theorem claim3_amended_witness :
    (addPropertyToClass initBuilder "C" "p" (.obj []) = initBuilder ∧
     addRequiredToClass initBuilder "C" "p" = initBuilder) ∧
    ((addPropertyToClass
        (addDefinition initBuilder "C"
          (.obj [("type", .str "object"), ("properties", .obj [])]))
        "C" "p" (.obj [])).definitions
      = [("C", .obj [("type", .str "object"),
                     ("properties", .obj [("p", .obj [])])])]) := by
  constructor
  · exact claim3_amended_attach_only_existing.1 initBuilder "C" "p" (.obj []) rfl
  · have := (claim3_amended_attach_only_existing.2.1
      (addDefinition initBuilder "C"
        (.obj [("type", .str "object"), ("properties", .obj [])]))
      "C" "p" (.obj [])
      [("type", .str "object"), ("properties", .obj [])] [] rfl rfl).1
    rw [this]
    rfl

/-! ## Ontology model (model.py) and the twelve engine rules -/

/-- ObjectProperty of the model (model.py). -/
structure ObjectProperty where
  uri : String
  label : Option Json := none
  comment : Option Json := none
  domain : List String := []
  range : List String := []
  superProperties : List String := []
  annotations : List (String × Json) := []
  inverseOf : Option String := none
  functional : Bool := false
  inverseFunctional : Bool := false
  transitive : Bool := false
  symmetric : Bool := false
  asymmetric : Bool := false
  irreflexive : Bool := false
  reflexive : Bool := false

/-- DatatypeProperty of the model (model.py). -/
structure DatatypeProperty where
  uri : String
  label : Option Json := none
  comment : Option Json := none
  domain : List String := []
  range : List String := []
  superProperties : List String := []
  annotations : List (String × Json) := []
  functional : Bool := false

/-- OntologyIndividual of the model (model.py). -/
structure OntologyIndividual where
  uri : String
  label : Option Json := none
  types : List String := []
  properties : List (String × Json) := []
  annotations : List (String × Json) := []

/-- OntologyModel (model.py). -/
structure OntologyModel where
  uri : String
  classes : List OntologyClass := []
  objectProperties : List ObjectProperty := []
  datatypeProperties : List DatatypeProperty := []
  individuals : List OntologyIndividual := []
  annotations : List (String × Json) := []
  imports : List String := []

/-- get_label / get_comment: a dict label is looked up by language (an
empty language falls back to "en", like Python's `lang or "en"`), with an
"en" fallback; a plain label is returned as is. -/
def getLangText (v : Option Json) (lang : String) : Option Json :=
  match v with
  | none => none
  | some (.obj m) =>
      let l := if lang = "" then "en" else lang
      match getA m l with
      | some x => some x
      | none => getA m "en"
  | some other => some other

/-- Rule option "language" (default "en"); a non-string value never
matches the string keys of a label dict, behaving like the empty
language. -/
def getLanguage (options : List (String × Json)) : String :=
  match getA options "language" with
  | some (.str s) => s
  | some _ => ""
  | none => "en"

/-- Truthiness of an optional getter result. -/
def optTruthy (o : Option Json) : Bool :=
  match o with
  | none => false
  | some j => truthy j

/-- Boolean rule option with a default. -/
def boolOption (options : List (String × Json)) (k : String) (dflt : Bool) : Bool :=
  match getA options k with
  | some v => truthy v
  | none => dflt

/-- ClassToObjectRule._transform_class. -/
def transformClass (options : List (String × Json)) (cls : OntologyClass) : Json :=
  let s : List (String × Json) :=
    [("type", .str "object"), ("properties", .obj [])]
  let s := match getLangText cls.label (getLanguage options) with
    | some l => if truthy l then setKey s "title" l else s
    | none => s
  let s := match getLangText cls.comment (getLanguage options) with
    | some c => if truthy c then setKey s "description" c else s
    | none => s
  .obj (setKey s "uri" (.str cls.uri))

/-- ClassToObjectRule.visit_ontology. -/
def classToObjectVisit (options : List (String × Json)) (m : OntologyModel) :
    Option Json :=
  let definitions := m.classes.foldl
    (fun acc cls => setKey acc (getName cls.uri) (transformClass options cls)) []
  if definitions.isEmpty then none
  else some (.obj [("definitions", .obj definitions)])

/-- The `{"@id": ...}` stub schema of the object-property rule. -/
def idStub : Json :=
  .obj [("type", .str "object"),
        ("properties", .obj [("@id", .obj [("type", .str "string"),
                                           ("format", .str "uri")])]),
        ("required", .arr [.str "@id"]),
        ("additionalProperties", .bool false)]

/-- ClassHierarchyRule.visit_ontology. -/
def classHierarchyVisit (m : OntologyModel) : Option Json :=
  let updates := m.classes.foldl
    (fun acc cls =>
      match cls.superClasses with
      | [] => acc
      | _ =>
          let allOf := cls.superClasses.map
            (fun su => Json.obj [("$ref", .str ("#/definitions/" ++ getName su))])
          setKey acc (getName cls.uri)
            (.obj [("allOf", .arr (allOf ++
              [.obj [("type", .str "object"), ("properties", .obj [])]]))]))
    []
  if updates.isEmpty then none
  else some (.obj [("hierarchy_updates", .obj updates)])

/-- Serialization of a ClassConstraints record as the dict the rule
returns (the "required" key is removed when empty). -/
def classConstraintsToJson (c : ClassConstraints) : Json :=
  .obj ([("class", .str c.className),
         ("properties", .obj (c.properties.map (fun p => (p.1, Json.obj p.2))))] ++
        (if c.required.isEmpty then [] else
          [("required", .arr (c.required.map Json.str))]))

/-- ClassRestrictionsRule.visit_ontology. -/
def classRestrictionsVisit (m : OntologyModel) : Option Json :=
  let results := m.classes.filterMap
    (fun cls => (processClassRestrictions cls).map classConstraintsToJson)
  if results.isEmpty then none else some (.arr results)

/-- ObjectPropertyRule._find_property_by_uri. -/
def findObjProp (m : OntologyModel) (uri : String) : Option ObjectProperty :=
  m.objectProperties.find? (fun p => p.uri = uri)

/-- ObjectPropertyRule._infer_property_domain_from_usage. -/
def inferDomainFromUsage (p : ObjectProperty) (m : OntologyModel) : List String :=
  m.classes.foldl
    (fun acc cls =>
      if cls.restrictions.any (fun r => r.propertyUri = p.uri) &&
         !(acc.contains cls.uri)
      then acc ++ [cls.uri] else acc)
    []

/-- ObjectPropertyRule._transform_object_property. -/
def transformObjectProperty (options : List (String × Json)) (m : OntologyModel)
    (prop : ObjectProperty) : List Json :=
  let propName := getName prop.uri
  let domains :=
    match prop.domain with
    | _ :: _ => prop.domain
    | [] =>
        match prop.inverseOf with
        | some iu =>
            match findObjProp m iu with
            | some ip => if ip.range.isEmpty then [] else ip.range
            | none => []
        | none => []
  let isFunctional := prop.functional ||
    (match prop.inverseOf with
     | some iu =>
         match findObjProp m iu with
         | some ip => ip.inverseFunctional
         | none => false
     | none => false)
  let rangeClass : Option String :=
    match prop.range with
    | r :: _ => some (getName r)
    | [] =>
        match prop.inverseOf with
        | some iu =>
            match findObjProp m iu with
            | some ip =>
                match ip.domain with
                | d :: _ => some (getName d)
                | [] =>
                    match inferDomainFromUsage ip m with
                    | d :: _ => some (getName d)
                    | [] => none
            | none => none
        | none => none
  let schemaKvs : List (String × Json) :=
    match rangeClass with
    | some rc =>
        [("oneOf", .arr [.obj [("$ref", .str ("#/definitions/" ++ rc))], idStub])]
    | none =>
        [("oneOf", .arr [.obj [("type", .str "object")], idStub])]
  let schemaKvs := if optTruthy prop.label then
      setKey schemaKvs "title"
        ((getLangText prop.label (getLanguage options)).getD .null)
    else schemaKvs
  let schemaKvs := if optTruthy prop.comment then
      setKey schemaKvs "description"
        ((getLangText prop.comment (getLanguage options)).getD .null)
    else schemaKvs
  let schema := if isFunctional then Json.obj schemaKvs
    else Json.obj [("type", .str "array"), ("items", .obj schemaKvs)]
  match domains with
  | _ :: _ =>
      domains.map (fun du => Json.obj
        [("class", .str (getName du)),
         ("property", .obj [("name", .str propName), ("schema", schema),
                            ("uri", .str prop.uri)])])
  | [] =>
      if boolOption options "include_global_properties" false then
        [.obj [("class", .str "_global"),
               ("property", .obj [("name", .str propName), ("schema", schema),
                                  ("uri", .str prop.uri)])]]
      else []

/-- ObjectPropertyRule.visit_ontology. -/
def objectPropertyVisit (options : List (String × Json)) (m : OntologyModel) :
    Option Json :=
  let results := m.objectProperties.foldl
    (fun acc p => acc ++ transformObjectProperty options m p) []
  if results.isEmpty then none else some (.arr results)

/-- XSD-to-JSON-Schema mapping of DatatypePropertyRule._get_datatype_schema. -/
def xsdMapping : List (String × Json) :=
  [("http://www.w3.org/2001/XMLSchema#string", .obj [("type", .str "string")]),
   ("http://www.w3.org/2001/XMLSchema#boolean", .obj [("type", .str "boolean")]),
   ("http://www.w3.org/2001/XMLSchema#decimal", .obj [("type", .str "number")]),
   ("http://www.w3.org/2001/XMLSchema#float", .obj [("type", .str "number")]),
   ("http://www.w3.org/2001/XMLSchema#double", .obj [("type", .str "number")]),
   ("http://www.w3.org/2001/XMLSchema#integer", .obj [("type", .str "integer")]),
   ("http://www.w3.org/2001/XMLSchema#nonNegativeInteger",
     .obj [("type", .str "integer"), ("minimum", .int 0)]),
   ("http://www.w3.org/2001/XMLSchema#positiveInteger",
     .obj [("type", .str "integer"), ("minimum", .int 1)]),
   ("http://www.w3.org/2001/XMLSchema#nonPositiveInteger",
     .obj [("type", .str "integer"), ("maximum", .int 0)]),
   ("http://www.w3.org/2001/XMLSchema#negativeInteger",
     .obj [("type", .str "integer"), ("maximum", .int (-1))]),
   ("http://www.w3.org/2001/XMLSchema#long", .obj [("type", .str "integer")]),
   ("http://www.w3.org/2001/XMLSchema#int", .obj [("type", .str "integer")]),
   ("http://www.w3.org/2001/XMLSchema#short", .obj [("type", .str "integer")]),
   ("http://www.w3.org/2001/XMLSchema#byte",
     .obj [("type", .str "integer"), ("minimum", .int (-128)), ("maximum", .int 127)]),
   ("http://www.w3.org/2001/XMLSchema#unsignedLong",
     .obj [("type", .str "integer"), ("minimum", .int 0)]),
   ("http://www.w3.org/2001/XMLSchema#unsignedInt",
     .obj [("type", .str "integer"), ("minimum", .int 0)]),
   ("http://www.w3.org/2001/XMLSchema#unsignedShort",
     .obj [("type", .str "integer"), ("minimum", .int 0), ("maximum", .int 65535)]),
   ("http://www.w3.org/2001/XMLSchema#unsignedByte",
     .obj [("type", .str "integer"), ("minimum", .int 0), ("maximum", .int 255)]),
   ("http://www.w3.org/2001/XMLSchema#date",
     .obj [("type", .str "string"), ("format", .str "date")]),
   ("http://www.w3.org/2001/XMLSchema#time",
     .obj [("type", .str "string"), ("format", .str "time")]),
   ("http://www.w3.org/2001/XMLSchema#dateTime",
     .obj [("type", .str "string"), ("format", .str "date-time")]),
   ("http://www.w3.org/2001/XMLSchema#duration", .obj [("type", .str "string")]),
   ("http://www.w3.org/2001/XMLSchema#anyURI",
     .obj [("type", .str "string"), ("format", .str "uri")])]

/-- DatatypePropertyRule._get_datatype_schema (the `.copy()` of the
template is implicit in a pure setting). -/
def getDatatypeSchema (dt : Option String) : Json :=
  match dt with
  | none => .obj [("type", .str "string")]
  | some uri =>
      match getA xsdMapping uri with
      | some s => s
      | none =>
          let nm := if strContains uri '#' then lastSegment '#' uri else uri
          match getA xsdMapping ("http://www.w3.org/2001/XMLSchema#" ++ nm) with
          | some s => s
          | none => .obj [("type", .str "string")]

/-- DatatypePropertyRule._transform_datatype_property. -/
def transformDatatypeProperty (options : List (String × Json))
    (prop : DatatypeProperty) : List Json :=
  let propName := getName prop.uri
  let schemaKvs :=
    match getDatatypeSchema (prop.range.head?) with
    | .obj kvs => kvs
    | _ => []
  let schemaKvs := if optTruthy prop.label then
      setKey schemaKvs "title"
        ((getLangText prop.label (getLanguage options)).getD .null)
    else schemaKvs
  let schemaKvs := if optTruthy prop.comment then
      setKey schemaKvs "description"
        ((getLangText prop.comment (getLanguage options)).getD .null)
    else schemaKvs
  let schema := if prop.functional then Json.obj schemaKvs
    else Json.obj [("type", .str "array"), ("items", .obj schemaKvs)]
  match prop.domain with
  | _ :: _ =>
      prop.domain.map (fun du => Json.obj
        [("class", .str (getName du)),
         ("property", .obj [("name", .str propName), ("schema", schema),
                            ("uri", .str prop.uri)])])
  | [] =>
      if boolOption options "include_global_properties" false then
        [.obj [("class", .str "_global"),
               ("property", .obj [("name", .str propName), ("schema", schema),
                                  ("uri", .str prop.uri)])]]
      else []

/-- DatatypePropertyRule.visit_ontology. -/
def datatypePropertyVisit (options : List (String × Json)) (m : OntologyModel) :
    Option Json :=
  let results := m.datatypeProperties.foldl
    (fun acc p => acc ++ transformDatatypeProperty options p) []
  if results.isEmpty then none else some (.arr results)

/-- PropertyCardinalityRule._process_cardinality. -/
def processCardinality (options : List (String × Json))
    (minC maxC exactC : Option Int) : List (String × Json) :=
  let useArrays := boolOption options "use_arrays" true
  match exactC with
  | some e =>
      if e = 1 then []
      else if useArrays then
        [("type", .str "array"), ("minItems", .int e), ("maxItems", .int e)]
      else []
  | none =>
      match minC, maxC with
      | some mn, some mx =>
          if mn = 0 && mx = 1 then []
          else if useArrays then
            let s : List (String × Json) := [("type", .str "array")]
            let s := if mn > 0 then setKey s "minItems" (.int mn) else s
            setKey s "maxItems" (.int mx)
          else []
      | some mn, none =>
          if mn > 1 && useArrays then
            [("type", .str "array"), ("minItems", .int mn)]
          else []
      | none, some mx =>
          if mx = 1 then []
          else if useArrays then
            [("type", .str "array"), ("maxItems", .int mx)]
          else []
      | none, none => []

/-- PropertyCardinalityRule.visit_class. -/
def cardinalityVisitClass (options : List (String × Json)) (cls : OntologyClass) :
    Option Json :=
  let pr := cls.restrictions.foldl
    (fun (acc : List (String × Json) × List String) r =>
      match r with
      | .card pu _ minC maxC exactC =>
          let propName := getName pu
          let schema := processCardinality options minC maxC exactC
          let props :=
            if schema.isEmpty then acc.1
            else
              match getA acc.1 propName with
              | some (.obj existing) =>
                  setKey acc.1 propName (.obj (updateKeys existing schema))
              | some _ => acc.1
              | none => setKey acc.1 propName (.obj schema)
          let req :=
            if (match minC with
                | some mn => mn ≥ 1
                | none => false) && !(acc.2.contains propName)
            then acc.2 ++ [propName] else acc.2
          (props, req)
      | .val _ _ _ _ => acc)
    ([], [])
  let c1 : List (String × Json) :=
    if pr.1.isEmpty then [] else [("properties", .obj pr.1)]
  let c2 := if pr.2.isEmpty then c1
    else c1 ++ [("required", .arr (pr.2.map Json.str))]
  if c2.isEmpty then none else some (.obj c2)

/-- PropertyCardinalityRule has no visit_ontology of its own; the default
TransformationRule.visit_ontology collects the non-None per-class results
(property and individual visits return None for this rule). -/
def propertyCardinalityVisit (options : List (String × Json)) (m : OntologyModel) :
    Option Json :=
  let results := m.classes.filterMap (cardinalityVisitClass options)
  if results.isEmpty then none else some (.arr results)

/-- LabelsToTitlesRule.visit_ontology. -/
def labelsToTitlesVisit (options : List (String × Json)) (m : OntologyModel) :
    Option Json :=
  let lang := getLanguage options
  let updates := m.classes.foldl
    (fun acc cls =>
      match getLangText cls.label lang with
      | some l => if truthy l then
          setKey acc ("class:" ++ getName cls.uri) (.obj [("title", l)]) else acc
      | none => acc) []
  let updates := m.objectProperties.foldl
    (fun acc p =>
      match getLangText p.label lang with
      | some l => if truthy l then
          setKey acc ("property:" ++ getName p.uri) (.obj [("title", l)]) else acc
      | none => acc) updates
  let updates := m.datatypeProperties.foldl
    (fun acc p =>
      match getLangText p.label lang with
      | some l => if truthy l then
          setKey acc ("property:" ++ getName p.uri) (.obj [("title", l)]) else acc
      | none => acc) updates
  if updates.isEmpty then none
  else some (.obj [("title_updates", .obj updates)])

/-- CommentsToDescriptionsRule.visit_ontology. -/
def commentsToDescriptionsVisit (options : List (String × Json))
    (m : OntologyModel) : Option Json :=
  let lang := getLanguage options
  let updates := m.classes.foldl
    (fun acc cls =>
      match getLangText cls.comment lang with
      | some c => if truthy c then
          setKey acc ("class:" ++ getName cls.uri) (.obj [("description", c)])
        else acc
      | none => acc) []
  let updates := m.objectProperties.foldl
    (fun acc p =>
      match getLangText p.comment lang with
      | some c => if truthy c then
          setKey acc ("property:" ++ getName p.uri) (.obj [("description", c)])
        else acc
      | none => acc) updates
  let updates := m.datatypeProperties.foldl
    (fun acc p =>
      match getLangText p.comment lang with
      | some c => if truthy c then
          setKey acc ("property:" ++ getName p.uri) (.obj [("description", c)])
        else acc
      | none => acc) updates
  if updates.isEmpty then none
  else some (.obj [("description_updates", .obj updates)])

/-- EnumerationToEnumRule._create_enum_schema. -/
def createEnumSchema (options : List (String × Json)) (cls : OntologyClass) :
    Option Json :=
  let values := (getA cls.annotations "enumeration").getD (.arr [])
  if !truthy values then none
  else
    let s : List (String × Json) := [("type", .str "string"), ("enum", values)]
    let s := match getLangText cls.label (getLanguage options) with
      | some l => if truthy l then setKey s "title" l else s
      | none => s
    let s := match getLangText cls.comment (getLanguage options) with
      | some c => if truthy c then setKey s "description" c else s
      | none => s
    some (.obj s)

/-- EnumerationToEnumRule.visit_ontology. -/
def enumerationToEnumVisit (options : List (String × Json)) (m : OntologyModel) :
    Option Json :=
  let updates := m.classes.foldl
    (fun acc cls =>
      if hasKey cls.annotations "enumeration" then
        match createEnumSchema options cls with
        | some s => setKey acc (getName cls.uri) s
        | none => acc
      else acc) []
  if updates.isEmpty then none
  else some (.obj [("enum_updates", .obj updates)])

/-- Python iteration over a JSON value: a string yields its characters, a
list its elements, a dict its keys.  (Iterating over a number, boolean or
None raises TypeError in Python; those cases cannot be reached from the
theorems below, which only exercise the rule when the annotation key is
absent or holds a string or list.) -/
def jsonIterate (j : Json) : List Json :=
  match j with
  | .str s => s.toList.map (fun c => .str (String.mk [c]))
  | .arr xs => xs
  | .obj kvs => kvs.map (fun p => Json.str p.1)
  | _ => []

/-- _get_class_name applied to an iterated member (a non-string member
would raise inside the Python string helpers). -/
def getNameJ (j : Json) : String :=
  match j with
  | .str s => getName s
  | _ => ""

/-- UnionToAnyOfRule.visit_class. -/
def unionVisitClass (cls : OntologyClass) : Option Json :=
  match getA cls.annotations "unionOf" with
  | none => none
  | some v =>
      if truthy v then
        let anyOf := (jsonIterate v).map
          (fun cu => Json.obj [("$ref", .str ("#/definitions/" ++ getNameJ cu))])
        if anyOf.isEmpty then none else some (.obj [("anyOf", .arr anyOf)])
      else none

/-- UnionToAnyOfRule has no visit_ontology; the default collects per-class
results. -/
def unionToAnyOfVisit (m : OntologyModel) : Option Json :=
  let results := m.classes.filterMap unionVisitClass
  if results.isEmpty then none else some (.arr results)

/-- IntersectionToAllOfRule.visit_class. -/
def intersectionVisitClass (cls : OntologyClass) : Option Json :=
  match getA cls.annotations "intersectionOf" with
  | none => none
  | some v =>
      if truthy v then
        let allOf := (jsonIterate v).map
          (fun cu => Json.obj [("$ref", .str ("#/definitions/" ++ getNameJ cu))])
        if allOf.isEmpty then none else some (.obj [("allOf", .arr allOf)])
      else none

/-- IntersectionToAllOfRule via the default visit_ontology. -/
def intersectionToAllOfVisit (m : OntologyModel) : Option Json :=
  let results := m.classes.filterMap intersectionVisitClass
  if results.isEmpty then none else some (.arr results)

/-- ComplementToNotRule.visit_class (instantiated by no engine rule id;
kept for claim C6). -/
def complementVisitClass (cls : OntologyClass) : Option Json :=
  match getA cls.annotations "complementOf" with
  | none => none
  | some v =>
      if truthy v then
        some (.obj [("not", .obj
          [("$ref", .str ("#/definitions/" ++ getNameJ v))])])
      else none

mutual

/-- Python json.dumps with default separators (the metadata strings
reaching this point contain no characters that json.dumps would escape). -/
def jsonDumps : Json → String
  | .null => "null"
  | .str s => "\"" ++ s ++ "\""
  | .int n => toString n
  | .bool b => if b then "true" else "false"
  | .arr xs => "[" ++ jsonDumpsList xs ++ "]"
  | .obj kvs => "\x7b" ++ jsonDumpsObj kvs ++ "\x7d"

/-- Comma-joined serialization of array members. -/
def jsonDumpsList : List Json → String
  | [] => ""
  | [x] => jsonDumps x
  | x :: y :: xs => jsonDumps x ++ ", " ++ jsonDumpsList (y :: xs)

/-- Comma-joined serialization of object entries. -/
def jsonDumpsObj : List (String × Json) → String
  | [] => ""
  | [(k, v)] => "\"" ++ k ++ "\": " ++ jsonDumps v
  | (k, v) :: q :: xs =>
      "\"" ++ k ++ "\": " ++ jsonDumps v ++ ", " ++ jsonDumpsObj (q :: xs)

end

/-- OntologyMetadataRule.visit_ontology. -/
def ontologyMetadataVisit (options : List (String × Json)) (m : OntologyModel) :
    Option Json :=
  let ann := m.annotations
  let pick (k1 k2 out : String) (md : List (String × Json)) :=
    match getA ann k1 with
    | some v => setKey md out v
    | none =>
        match getA ann k2 with
        | some v => setKey md out v
        | none => md
  let md : List (String × Json) := []
  let md := match getA ann "versionInfo" with
    | some v => setKey md "version" v
    | none => md
  let md := pick "creator" "dc:creator" "author" md
  let md := pick "license" "dc:rights" "license" md
  let md := pick "created" "dc:date" "created" md
  let md := pick "modified" "dc:modified" "modified" md
  let md := pick "contributor" "dc:contributor" "contributors" md
  let md := pick "source" "dc:source" "source" md
  let md := if boolOption options "include_namespaces" false then
      setKey md "namespaces" (.obj
        [("$comment", .str "Namespace information would be included here")])
    else md
  let handledKeys : List String :=
    ["versionInfo", "creator", "dc:creator", "license", "dc:rights", "created",
     "dc:date", "modified", "dc:modified", "contributor", "dc:contributor",
     "source", "dc:source", "title", "description", "comment"]
  let md := if boolOption options "include_all_annotations" false then
      ann.foldl (fun acc p =>
        if handledKeys.contains p.1 then acc
        else setKey acc ("owl:" ++ p.1) p.2) md
    else md
  if md.isEmpty then none
  else
    let placement := match getA options "placement" with
      | some (.str s) => s
      | some _ => ""
      | none => "root"
    if placement = "root" then some (.obj md)
    else if placement = "info" then some (.obj [("info", .obj md)])
    else if placement = "comment" then
      some (.obj [("$comment", .str ("Metadata: " ++ jsonDumps (.obj md)))])
    else some (.obj md)

/-! ## TransformationEngine (engine.py) -/

/-- Per-rule configuration after defaulting (TransformationRule.__init__:
`enabled = config.get("enabled", True)`, `options = config.get("options", {})`). -/
structure RuleConfig where
  enabled : Bool := true
  options : List (String × Json) := []

/-- The twelve rule ids instantiated by _initialize_rules, in table order. -/
def ruleIds : List String :=
  ["class_to_object", "class_hierarchy", "class_restrictions",
   "object_property", "datatype_property", "property_cardinality",
   "labels_to_titles", "comments_to_descriptions", "enumeration_to_enum",
   "union_to_anyOf", "intersection_to_allOf", "ontology_metadata"]

/-- Dispatch of `ontology.accept(rule)` for each instantiated rule id. -/
def applyRule (ruleId : String) (options : List (String × Json))
    (m : OntologyModel) : Option Json :=
  if ruleId = "class_to_object" then classToObjectVisit options m
  else if ruleId = "class_hierarchy" then classHierarchyVisit m
  else if ruleId = "class_restrictions" then classRestrictionsVisit m
  else if ruleId = "object_property" then objectPropertyVisit options m
  else if ruleId = "datatype_property" then datatypePropertyVisit options m
  else if ruleId = "property_cardinality" then propertyCardinalityVisit options m
  else if ruleId = "labels_to_titles" then labelsToTitlesVisit options m
  else if ruleId = "comments_to_descriptions" then
    commentsToDescriptionsVisit options m
  else if ruleId = "enumeration_to_enum" then enumerationToEnumVisit options m
  else if ruleId = "union_to_anyOf" then unionToAnyOfVisit m
  else if ruleId = "intersection_to_allOf" then intersectionToAllOfVisit m
  else if ruleId = "ontology_metadata" then ontologyMetadataVisit options m
  else none

/-- TransformationEngine.transform: reset the builder, run each enabled
rule over the model in table order, dispatch non-null results into the
builder, build. -/
def transform (cfg : String → RuleConfig) (m : OntologyModel) : Json :=
  build (ruleIds.foldl
    (fun b id =>
      if (cfg id).enabled then
        match applyRule id (cfg id).options m with
        | some r => processRuleResult id r b
        | none => b
      else b)
    initBuilder)

/-- C10: the engine instantiates exactly the twelve listed rule ids; the
transform output depends on the configuration only through those twelve
ids (entries for any other rule id never change the schema); and results
of the union_to_anyOf and intersection_to_allOf rules are discarded because
_process_rule_result has no merge branch for them, so disabling those two
rules never changes the output either. -/
theorem claim10_twelve_rules_and_discarded_results :
    (ruleIds =
      ["class_to_object", "class_hierarchy", "class_restrictions",
       "object_property", "datatype_property", "property_cardinality",
       "labels_to_titles", "comments_to_descriptions", "enumeration_to_enum",
       "union_to_anyOf", "intersection_to_allOf", "ontology_metadata"] ∧
     ruleIds.length = 12) ∧
    (∀ (m : OntologyModel) (cfg1 cfg2 : String → RuleConfig),
      (∀ id ∈ ruleIds, cfg1 id = cfg2 id) →
      transform cfg1 m = transform cfg2 m) ∧
    (∀ (r : Json) (b : SchemaBuilder),
      processRuleResult "union_to_anyOf" r b = b ∧
      processRuleResult "intersection_to_allOf" r b = b) ∧
    (∀ (m : OntologyModel) (cfg : String → RuleConfig),
      transform cfg m = transform
        (fun id =>
          if id = "union_to_anyOf" || id = "intersection_to_allOf" then
            ⟨false, (cfg id).options⟩
          else cfg id) m) := by
  have hdiscard : ∀ (r : Json) (b : SchemaBuilder),
      processRuleResult "union_to_anyOf" r b = b ∧
      processRuleResult "intersection_to_allOf" r b = b := by
    intro r b
    constructor <;> rfl
  refine ⟨⟨rfl, rfl⟩, ?_, hdiscard, ?_⟩
  · intro m cfg1 cfg2 h
    rw [transform, transform]
    apply congrArg build
    apply List.foldl_ext
    intro b id hid
    rw [h id hid]
  · intro m cfg
    rw [transform, transform]
    apply congrArg build
    apply List.foldl_ext
    intro b id _
    by_cases hu : id = "union_to_anyOf"
    · subst hu
      cases he : (cfg "union_to_anyOf").enabled with
      | false => simp [he]
      | true =>
          cases ha : applyRule "union_to_anyOf" (cfg "union_to_anyOf").options m with
          | none => simp [he, ha]
          | some r => simp [he, ha, (hdiscard r b).1]
    · by_cases hi : id = "intersection_to_allOf"
      · subst hi
        cases he : (cfg "intersection_to_allOf").enabled with
        | false => simp [he]
        | true =>
            cases ha : applyRule "intersection_to_allOf"
                (cfg "intersection_to_allOf").options m with
            | none => simp [he, ha]
            | some r => simp [he, ha, (hdiscard r b).2]
      · simp [hu, hi]

/-- C10 witness: a configuration entry for a foreign rule id
(disjoint_classes) does not change the transform of a concrete model, and
concrete union/intersection results are discarded. -/
theorem claim10_witness :
    transform (fun _ => ⟨true, []⟩)
      ⟨"http://x", [⟨"http://x#C", none, none, [], [], [], [], []⟩],
        [], [], [], [], []⟩
      = transform
        (fun id => if id = "disjoint_classes"
          then ⟨false, [("enforcement", .str "oneOf")]⟩ else ⟨true, []⟩)
        ⟨"http://x", [⟨"http://x#C", none, none, [], [], [], [], []⟩],
          [], [], [], [], []⟩ ∧
    processRuleResult "union_to_anyOf"
      (.arr [.obj [("anyOf", .arr [.obj [("$ref", .str "#/definitions/A")]])]])
      initBuilder = initBuilder ∧
    processRuleResult "intersection_to_allOf"
      (.arr [.obj [("allOf", .arr [.obj [("$ref", .str "#/definitions/A")]])]])
      initBuilder = initBuilder := by
  refine ⟨?_, ?_, ?_⟩
  · apply claim10_twelve_rules_and_discarded_results.2.1
    intro id hid
    fin_cases hid <;> rfl
  · exact (claim10_twelve_rules_and_discarded_results.2.2.1 _ initBuilder).1
  · exact (claim10_twelve_rules_and_discarded_results.2.2.1 _ initBuilder).2

/-! ## ABoxGenerator object-property phase (abox_generator.py, C4/C5) -/

/-- RDF triple over URIs (the object-property phase only asserts
URI-to-URI edges). -/
abbrev Trip := String × String × String

/-- rdflib Graph.add: a graph is a set of triples, adding an existing
triple is a no-op; insertion order models one iteration order. -/
def addT (g : List Trip) (t : Trip) : List Trip :=
  if g.contains t then g else g ++ [t]

/-- rdflib graph.objects(s, p). -/
def objectsOf (g : List Trip) (s p : String) : List String :=
  g.filterMap (fun t => if t.1 = s ∧ t.2.1 = p then some t.2.2 else none)

/-- Lower-cased string (Python str.lower on ASCII names). -/
def toLowerStr (s : String) : String := String.mk (s.toList.map Char.toLower)

/-- Contiguous containment of one character list in another. -/
def listIsInfix (needle : List Char) : List Char → Bool
  | [] => needle.isEmpty
  | c :: tl => needle.isPrefixOf (c :: tl) || listIsInfix needle tl

/-- Python `needle in hay` on strings. -/
def strInStr (needle hay : String) : Bool := listIsInfix needle.toList hay.toList

/-- Keywords marking a "structural" object property. -/
def structuralKeywords : List String :=
  ["part", "has", "contains", "member", "component", "composed"]

/-- ABoxGenerator._get_property_cardinality: (min 0, max -1=unbounded)
refined by the class's cardinality restrictions on the property
(ValueRestriction instances have no cardinality attributes). -/
def getPropertyCardinality (cls : OntologyClass) (propUri : String) : Int × Int :=
  cls.restrictions.foldl
    (fun (acc : Int × Int) r =>
      match r with
      | .card pu _ minC maxC exactC =>
          if pu = propUri then
            let mn := match minC with
              | some m => max acc.1 m
              | none => acc.1
            let mx := match maxC with
              | some m => if acc.2 = -1 then m else min acc.2 m
              | none => acc.2
            match exactC with
            | some e => (e, e)
            | none => (mn, mx)
          else acc
      | .val _ _ _ _ => acc)
    (0, -1)

/-- ABoxGenerator._is_property_applicable. -/
def isPropertyApplicable (cls : OntologyClass) (domains : List String) : Bool :=
  if domains.isEmpty then false
  else if domains.contains "http://www.w3.org/2002/07/owl#Thing" then true
  else domains.any (fun d => d = cls.uri || cls.superClasses.contains d)

/-- ABoxGenerator._get_applicable_object_properties over the
object_prop_map (a dict keyed by property URI, in insertion order). -/
def applicableObjectProps (pm : List (String × ObjectProperty))
    (cls : OntologyClass) : List ObjectProperty :=
  pm.filterMap (fun p =>
    if !p.2.domain.isEmpty && isPropertyApplicable cls p.2.domain then some p.2
    else if cls.restrictions.any (fun r => r.propertyUri = p.1) then some p.2
    else none)

/-- Set-style insertion (first-add order models one Python set iteration
order). -/
def dedupInsert (acc : List String) (x : String) : List String :=
  if acc.contains x then acc else acc ++ [x]

/-- ABoxGenerator._infer_property_range_from_restrictions: fillers of
value restrictions on the property, plus string restriction values that
look like URIs (a CardinalityRestriction's raw value is its integer and
never a string). -/
def inferRangeFromRestrictions (classes : List OntologyClass) (propUri : String) :
    List String :=
  classes.foldl
    (fun acc cls =>
      cls.restrictions.foldl
        (fun acc r =>
          match r with
          | .val pu _ _ filler =>
              if pu = propUri then dedupInsert acc filler else acc
          | .card pu v _ _ _ =>
              if pu = propUri then
                match v with
                | .str s => if strStartsWith s "http" then dedupInsert acc s else acc
                | _ => acc
              else acc)
        acc)
    []

/-- ABoxGenerator._get_target_individuals: individuals of the explicit or
inferred range classes (union modelled as a deduplicated list) and of
their subclasses. -/
def targetIndividuals (classes : List OntologyClass)
    (indivByClass : List (String × List String)) (prop : ObjectProperty) :
    List String :=
  let inferred := inferRangeFromRestrictions classes prop.uri
  let allRanges := (prop.range ++ inferred).foldl dedupInsert []
  if allRanges.isEmpty then []
  else
    allRanges.foldl
      (fun targets rc =>
        if rc = "http://www.w3.org/2002/07/owl#Thing" then targets
        else
          let targets := match getA indivByClass rc with
            | some l => targets ++ l
            | none => targets
          indivByClass.foldl
            (fun targets p =>
              if p.1 ≠ rc then
                match classes.find? (fun c => c.uri = p.1) with
                | some c => if c.superClasses.contains rc then targets ++ p.2
                            else targets
                | none => targets
              else targets)
            targets)
      []

/-- ABoxGenerator._get_used_targets_for_inverse_functional. -/
def usedTargets (g : List Trip) (propUri : String) : List String :=
  g.filterMap (fun t => if t.2.1 = propUri then some t.2.2 else none)

/-- Outcomes of the random draws inside the object-property loop, one per
(individual, property) pair: the generate coin(s), the secondary
one-or-zero coin, the randint outcome and the sample selection. -/
structure GenOracle where
  genDecide : String → String → Bool
  coin2 : String → String → Bool
  pick : String → String → Nat
  sample : String → String → List String → Nat → List String

/-- Python random.randint(lo, hi) outcome driven by the oracle draw
(randint raises when hi < lo; that case is unreachable in the runs
considered and modelled as lo). -/
def randintM (lo hi : Int) (r : Nat) : Int :=
  if hi < lo then lo else lo + (Int.ofNat r) % (hi - lo + 1)

/-- Body of the per-target loop of _generate_object_properties: the
redundant irreflexive recheck, the edge assertion, and the
inverse-property mirroring with its irreflexive / asymmetric /
functional guards. -/
def processTarget (pm : List (String × ObjectProperty)) (prop : ObjectProperty)
    (individual target : String) (g : List Trip) : List Trip :=
  if prop.irreflexive && target = individual then g
  else
    let g := addT g (individual, prop.uri, target)
    match prop.inverseOf with
    | none => g
    | some qUri =>
        match getA pm qUri with
        | none => g
        | some q =>
            if q.irreflexive && target = individual then g
            else if q.asymmetric && g.contains (individual, qUri, target) then g
            else if q.functional then
              if (objectsOf g target qUri).isEmpty then
                addT g (target, qUri, individual)
              else g
            else addT g (target, qUri, individual)

/-- One (individual, property) iteration of _generate_object_properties:
target collection, irreflexive/asymmetric filtering, cardinality and
functional capping, the generate decision, the value count, the
inverse-functional pool restriction, sampling, and the per-target loop. -/
def generateForProp (classes : List OntologyClass)
    (pm : List (String × ObjectProperty))
    (indivByClass : List (String × List String)) (o : GenOracle)
    (individual : String) (cls : OntologyClass) (prop : ObjectProperty)
    (g : List Trip) : List Trip :=
  let targets := targetIndividuals classes indivByClass prop
  if targets.isEmpty then g
  else
    let valid := targets.filter (fun t =>
      !(prop.irreflexive && t = individual) &&
      !(prop.asymmetric && g.contains (t, prop.uri, individual)))
    if valid.isEmpty then g
    else
      let mc := getPropertyCardinality cls prop.uri
      let minCard := mc.1
      let maxCard := if prop.functional then 1 else mc.2
      let isStructural := structuralKeywords.any
        (fun kw => strInStr kw (toLowerStr (getName prop.uri)))
      let generate := if minCard > 0 then true
        else o.genDecide individual prop.uri
      if !generate then g
      else
        let numValues : Int :=
          if maxCard = 1 then
            if minCard > 0 then 1
            else if o.coin2 individual prop.uri then 1 else 0
          else
            let maxVal := if isStructural then
                min (if maxCard > 0 then maxCard else 3) 3
              else min (if maxCard > 0 then maxCard else 2) 2
            randintM (max minCard 1) maxVal (o.pick individual prop.uri)
        if numValues = 0 then g
        else
          if prop.inverseFunctional then
            let pool := valid.filter
              (fun t => !(usedTargets g prop.uri).contains t)
            if pool.isEmpty then g
            else
              let selected := o.sample individual prop.uri pool
                (min numValues.toNat pool.length)
              selected.foldl (fun g t => processTarget pm prop individual t g) g
          else
            let selected := o.sample individual prop.uri valid
              (min numValues.toNat valid.length)
            selected.foldl (fun g t => processTarget pm prop individual t g) g

/-- The object-property half of _generate_property_assertions, iterating
individual_classes in insertion order (the interleaved datatype-property
assertions only add literal-valued triples and are independent of this
phase). -/
def generateObjectPropertiesPhase (classes : List OntologyClass)
    (pm : List (String × ObjectProperty))
    (indivByClass : List (String × List String)) (o : GenOracle)
    (indivClasses : List (String × String)) (g0 : List Trip) : List Trip :=
  indivClasses.foldl
    (fun g p =>
      match classes.find? (fun c => c.uri = p.2) with
      | none => g
      | some cls =>
          (applicableObjectProps pm cls).foldl
            (fun g prop => generateForProp classes pm indivByClass o p.1 cls prop g)
            g)
    g0

/-- Inverse-presence obligation of one asserted edge (a, u, b): the
mirrored edge is present, or the declared inverse is irreflexive and the
mirror would be a self-loop, or it is asymmetric and the reverse edge is
present, or it is functional and the subject already carries a value. -/
def invAt (pm : List (String × ObjectProperty)) (g : List Trip)
    (a u b : String) : Prop :=
  ∀ P, getA pm u = some P → ∀ qU, P.inverseOf = some qU →
    ∀ Q, getA pm qU = some Q →
      (b, qU, a) ∈ g ∨ (Q.irreflexive = true ∧ a = b) ∨
      (Q.asymmetric = true ∧ (a, qU, b) ∈ g) ∨
      (Q.functional = true ∧ ∃ c, (b, qU, c) ∈ g)

/-- The C5 invariant over a whole graph. -/
def InvHolds (pm : List (String × ObjectProperty)) (g : List Trip) : Prop :=
  ∀ a u b, (a, u, b) ∈ g → invAt pm g a u b

theorem mem_addT_iff (g : List Trip) (t t2 : Trip) :
    t2 ∈ addT g t ↔ t2 ∈ g ∨ t2 = t := by
  rw [addT]
  by_cases h : g.contains t
  · rw [if_pos h]
    constructor
    · exact fun h2 => Or.inl h2
    · rintro (h2 | h2)
      · exact h2
      · subst h2
        exact (contains_iff_mem_trip g t2).mp h
  · rw [if_neg h]
    rw [List.mem_append, List.mem_singleton]
where
  contains_iff_mem_trip (g : List Trip) (t : Trip) : g.contains t = true ↔ t ∈ g :=
    List.elem_iff

theorem sub_addT (g : List Trip) (t t2 : Trip) (h : t2 ∈ g) : t2 ∈ addT g t :=
  (mem_addT_iff g t t2).mpr (Or.inl h)

theorem self_mem_addT (g : List Trip) (t : Trip) : t ∈ addT g t :=
  (mem_addT_iff g t t).mpr (Or.inr rfl)

theorem mem_objectsOf (g : List Trip) (s p c : String) :
    c ∈ objectsOf g s p ↔ (s, p, c) ∈ g := by
  rw [objectsOf, List.mem_filterMap]
  constructor
  · rintro ⟨⟨s2, p2, c2⟩, hmem, hf⟩
    by_cases h : s2 = s ∧ p2 = p
    · rw [if_pos h] at hf
      injection hf with hf
      obtain ⟨h1, h2⟩ := h
      subst h1; subst h2; subst hf
      exact hmem
    · rw [if_neg h] at hf
      cases hf
  · intro h
    exact ⟨(s, p, c), h, by rw [if_pos ⟨rfl, rfl⟩]⟩

theorem invAt_mono {pm : List (String × ObjectProperty)} {g g2 : List Trip}
    {a u b : String} (hsub : ∀ t, t ∈ g → t ∈ g2) (h : invAt pm g a u b) :
    invAt pm g2 a u b := by
  intro P hP qU hq Q hQ
  rcases h P hP qU hq Q hQ with h1 | h2 | ⟨h3, h3m⟩ | ⟨h4, c, h4m⟩
  · exact Or.inl (hsub _ h1)
  · exact Or.inr (Or.inl h2)
  · exact Or.inr (Or.inr (Or.inl ⟨h3, hsub _ h3m⟩))
  · exact Or.inr (Or.inr (Or.inr ⟨h4, c, hsub _ h4m⟩))

theorem InvHolds_addT {pm : List (String × ObjectProperty)} {g : List Trip}
    {a u b : String} (hInv : InvHolds pm g)
    (hnew : invAt pm (addT g (a, u, b)) a u b) :
    InvHolds pm (addT g (a, u, b)) := by
  intro a2 u2 b2 hmem
  rcases (mem_addT_iff g (a, u, b) (a2, u2, b2)).mp hmem with hold | heq
  · exact invAt_mono (sub_addT g _) (hInv _ _ _ hold)
  · injection heq with h1 h23
    injection h23 with h2 h3
    subst h1; subst h2; subst h3
    exact hnew

theorem InvHolds_addT2 {pm : List (String × ObjectProperty)} {g : List Trip}
    {a u b a2 u2 b2 : String} (hInv : InvHolds pm g)
    (h1 : invAt pm (addT (addT g (a, u, b)) (a2, u2, b2)) a u b)
    (h2 : invAt pm (addT (addT g (a, u, b)) (a2, u2, b2)) a2 u2 b2) :
    InvHolds pm (addT (addT g (a, u, b)) (a2, u2, b2)) := by
  intro a3 u3 b3 hmem
  rcases (mem_addT_iff _ _ _).mp hmem with hmem1 | heq
  · rcases (mem_addT_iff _ _ _).mp hmem1 with hold | heq1
    · exact invAt_mono (fun t ht => sub_addT _ _ _ (sub_addT _ _ _ ht))
        (hInv _ _ _ hold)
    · injection heq1 with e1 e23
      injection e23 with e2 e3
      subst e1; subst e2; subst e3
      exact h1
  · injection heq with e1 e23
    injection e23 with e2 e3
    subst e1; subst e2; subst e3
    exact h2

/-- Invariant preservation for one target of the per-target loop. -/
theorem processTarget_inv (pm : List (String × ObjectProperty))
    (prop : ObjectProperty) (ind tgt : String) (g : List Trip)
    (hprop : getA pm prop.uri = some prop)
    (hsym : ∀ u P qU Q, getA pm u = some P → P.inverseOf = some qU →
      getA pm qU = some Q → Q.inverseOf = some u)
    (hInv : InvHolds pm g) :
    InvHolds pm (processTarget pm prop ind tgt g) := by
  rw [processTarget]
  by_cases h1 : (prop.irreflexive && tgt = ind) = true
  · rw [if_pos h1]
    exact hInv
  · rw [if_neg h1]
    dsimp only
    cases hio : prop.inverseOf with
    | none =>
        dsimp only
        apply InvHolds_addT hInv
        intro P hP qU hq Q hQ
        rw [hprop] at hP
        injection hP with hP
        subst hP
        rw [hio] at hq
        cases hq
    | some qUri =>
        dsimp only
        cases hql : getA pm qUri with
        | none =>
            dsimp only
            apply InvHolds_addT hInv
            intro P hP qU hq Q hQ
            rw [hprop] at hP
            injection hP with hP
            subst hP
            rw [hio] at hq
            injection hq with hq
            subst hq
            rw [hql] at hQ
            cases hQ
        | some q =>
            dsimp only
            by_cases hirr : (q.irreflexive && tgt = ind) = true
            · rw [if_pos hirr]
              apply InvHolds_addT hInv
              intro P hP qU hq Q hQ
              rw [hprop] at hP
              injection hP with hP
              subst hP
              rw [hio] at hq
              injection hq with hq
              subst hq
              rw [hql] at hQ
              injection hQ with hQ
              subst hQ
              rw [Bool.and_eq_true] at hirr
              obtain ⟨hi1, hi2⟩ := hirr
              exact Or.inr (Or.inl ⟨hi1, (of_decide_eq_true hi2).symm⟩)
            · rw [if_neg hirr]
              by_cases hasym : (q.asymmetric &&
                  (addT g (ind, prop.uri, tgt)).contains (ind, qUri, tgt)) = true
              · rw [if_pos hasym]
                apply InvHolds_addT hInv
                intro P hP qU hq Q hQ
                rw [hprop] at hP
                injection hP with hP
                subst hP
                rw [hio] at hq
                injection hq with hq
                subst hq
                rw [hql] at hQ
                injection hQ with hQ
                subst hQ
                rw [Bool.and_eq_true] at hasym
                obtain ⟨ha1, ha2⟩ := hasym
                exact Or.inr (Or.inr (Or.inl ⟨ha1, List.elem_iff.mp ha2⟩))
              · rw [if_neg hasym]
                have hmirror : invAt pm
                    (addT (addT g (ind, prop.uri, tgt)) (tgt, qUri, ind))
                    tgt qUri ind := by
                  intro P hP qU hq Q hQ
                  rw [hql] at hP
                  injection hP with hP
                  subst hP
                  have hqi := hsym prop.uri prop qUri q hprop hio hql
                  rw [hqi] at hq
                  injection hq with hq
                  subst hq
                  rw [hprop] at hQ
                  injection hQ with hQ
                  subst hQ
                  exact Or.inl (sub_addT _ _ _ (self_mem_addT _ _))
                have hdirect_mirrored : invAt pm
                    (addT (addT g (ind, prop.uri, tgt)) (tgt, qUri, ind))
                    ind prop.uri tgt := by
                  intro P hP qU hq Q hQ
                  rw [hprop] at hP
                  injection hP with hP
                  subst hP
                  rw [hio] at hq
                  injection hq with hq
                  subst hq
                  rw [hql] at hQ
                  injection hQ with hQ
                  subst hQ
                  exact Or.inl (self_mem_addT _ _)
                cases hfun : q.functional with
                | true =>
                    simp only [if_true]
                    by_cases hemp : (objectsOf (addT g (ind, prop.uri, tgt))
                        tgt qUri).isEmpty = true
                    · rw [if_pos hemp]
                      exact InvHolds_addT2 hInv hdirect_mirrored hmirror
                    · rw [if_neg hemp]
                      have hex : ∃ c, (tgt, qUri, c) ∈ addT g (ind, prop.uri, tgt) := by
                        cases ho : objectsOf (addT g (ind, prop.uri, tgt)) tgt qUri with
                        | nil => rw [ho] at hemp; exact absurd rfl hemp
                        | cons c rest =>
                            exact ⟨c, (mem_objectsOf _ _ _ _).mp (ho ▸
                              List.mem_cons_self c rest)⟩
                      apply InvHolds_addT hInv
                      intro P hP qU hq Q hQ
                      rw [hprop] at hP
                      injection hP with hP
                      subst hP
                      rw [hio] at hq
                      injection hq with hq
                      subst hq
                      rw [hql] at hQ
                      injection hQ with hQ
                      subst hQ
                      exact Or.inr (Or.inr (Or.inr ⟨hfun, hex⟩))
                | false =>
                    simp only [Bool.false_eq_true, if_false]
                    exact InvHolds_addT2 hInv hdirect_mirrored hmirror

theorem foldl_preserves {α β : Type} (P : α → Prop) (f : α → β → α) (l : List β)
    (h : ∀ a x, x ∈ l → P a → P (f a x)) : ∀ a, P a → P (l.foldl f a) := by
  induction l with
  | nil => intro a ha; exact ha
  | cons x xs ih =>
      intro a ha
      rw [List.foldl_cons]
      exact ih (fun a2 y hy h2 => h a2 y (List.mem_cons_of_mem _ hy) h2)
        (f a x) (h a x (List.mem_cons_self _ _) ha)

theorem applicable_getA (pm : List (String × ObjectProperty))
    (cls : OntologyClass) (prop : ObjectProperty)
    (hnodup : (pm.map Prod.fst).Nodup)
    (huri : ∀ pr ∈ pm, pr.2.uri = pr.1)
    (hmem : prop ∈ applicableObjectProps pm cls) :
    getA pm prop.uri = some prop := by
  rw [applicableObjectProps, List.mem_filterMap] at hmem
  obtain ⟨p, hp, hf⟩ := hmem
  have hval : prop = p.2 := by
    by_cases h1 : (!p.2.domain.isEmpty && isPropertyApplicable cls p.2.domain) = true
    · rw [if_pos h1] at hf
      injection hf with hf
      exact hf.symm
    · rw [if_neg h1] at hf
      by_cases h2 : (cls.restrictions.any (fun r => r.propertyUri = p.1)) = true
      · rw [if_pos h2] at hf
        injection hf with hf
        exact hf.symm
      · rw [if_neg h2] at hf
        cases hf
  subst hval
  have hk := huri p hp
  rw [hk]
  obtain ⟨k, v⟩ := p
  exact getA_of_mem_nodupKeys hnodup hp

/-- Invariant preservation for one (individual, property) iteration. -/
theorem generateForProp_inv (classes : List OntologyClass)
    (pm : List (String × ObjectProperty))
    (indivByClass : List (String × List String)) (o : GenOracle)
    (individual : String) (cls : OntologyClass) (prop : ObjectProperty)
    (g : List Trip)
    (hprop : getA pm prop.uri = some prop)
    (hsym : ∀ u P qU Q, getA pm u = some P → P.inverseOf = some qU →
      getA pm qU = some Q → Q.inverseOf = some u)
    (hInv : InvHolds pm g) :
    InvHolds pm (generateForProp classes pm indivByClass o individual cls prop g) := by
  have hfold : ∀ (sel : List String) (g2 : List Trip), InvHolds pm g2 →
      InvHolds pm (sel.foldl (fun g t => processTarget pm prop individual t g) g2) :=
    fun sel g2 h2 =>
      foldl_preserves (InvHolds pm) _ sel
        (fun a x _ ha => processTarget_inv pm prop individual x a hprop hsym ha) g2 h2
  rw [generateForProp]
  repeat' (first | split | dsimp only)
  all_goals first | exact hInv | exact hfold _ _ hInv

/-- Invariant preservation for the whole object-property phase. -/
theorem generatePhase_inv (classes : List OntologyClass)
    (pm : List (String × ObjectProperty))
    (indivByClass : List (String × List String)) (o : GenOracle)
    (indivClasses : List (String × String)) (g0 : List Trip)
    (hnodup : (pm.map Prod.fst).Nodup)
    (huri : ∀ pr ∈ pm, pr.2.uri = pr.1)
    (hsym : ∀ u P qU Q, getA pm u = some P → P.inverseOf = some qU →
      getA pm qU = some Q → Q.inverseOf = some u)
    (hInv : InvHolds pm g0) :
    InvHolds pm
      (generateObjectPropertiesPhase classes pm indivByClass o indivClasses g0) := by
  rw [generateObjectPropertiesPhase]
  apply foldl_preserves (InvHolds pm) _ indivClasses _ g0 hInv
  intro g p _ hg
  cases hc : classes.find? (fun c => c.uri = p.2) with
  | none => exact hg
  | some cls =>
      dsimp only
      apply foldl_preserves (InvHolds pm) _ (applicableObjectProps pm cls) _ g hg
      intro g2 prop hpmem hg2
      exact generateForProp_inv classes pm indivByClass o p.1 cls prop g2
        (applicable_getA pm cls prop hnodup huri hpmem) hsym hg2

/-- Decidable sufficient condition: every declared inverse that resolves in
the property map points back at the declaring property. -/
def symmetricInverses (pm : List (String × ObjectProperty)) : Bool :=
  pm.all (fun p =>
    match p.2.inverseOf with
    | none => true
    | some qU =>
        match getA pm qU with
        | none => true
        | some q => q.inverseOf == some p.1)

theorem symmetricInverses_sound (pm : List (String × ObjectProperty))
    (hs : symmetricInverses pm = true) :
    ∀ u P qU Q, getA pm u = some P → P.inverseOf = some qU →
      getA pm qU = some Q → Q.inverseOf = some u := by
  intro u P qU Q h1 h2 h3
  have hmem : (u, P) ∈ pm := mem_of_getA h1
  have := List.all_eq_true.mp hs (u, P) hmem
  rw [h2] at this
  dsimp only at this
  rw [h3] at this
  exact eq_of_beq this

/-- C5 fixture: inverse chain pA.inverse = pB, pB.inverse = pC (the parser
only back-fills an inverse when the target has none, so such chains
survive parsing). -/
def propAx : ObjectProperty :=
  { uri := "pA", domain := ["X"], range := ["Y"], inverseOf := some "pB" }

/-- C5 fixture: the middle property of the chain. -/
def propBx : ObjectProperty := { uri := "pB", inverseOf := some "pC" }

/-- C5 fixture: the third property of the chain. -/
def propCx : ObjectProperty := { uri := "pC", inverseOf := some "pB" }

/-- C5 fixture: the property map of the chain. -/
def pmChain : List (String × ObjectProperty) :=
  [("pA", propAx), ("pB", propBx), ("pC", propCx)]

/-- C5 fixture: two plain classes. -/
def classesXY : List OntologyClass :=
  [{ uri := "X" }, { uri := "Y" }]

/-- Deterministic oracle: always generate, one value, first-elements
sample (one possible outcome of the random draws). -/
def takeOracle : GenOracle :=
  ⟨fun _ _ => true, fun _ _ => true, fun _ _ => 0, fun _ _ pool k => pool.take k⟩

/-- C5: as stated the claim is false.  With the inverse chain above the
generated edge (b, pB, a) — itself the mirror of (a, pA, b) — has declared
inverse pC, yet (a, pC, b) is absent and pC is neither functional nor
irreflexive nor asymmetric, so no exception applies. -/
theorem claim5_counterexample_inverse_chain :
    generateObjectPropertiesPhase classesXY pmChain [("X", ["a"]), ("Y", ["b"])]
        takeOracle [("a", "X"), ("b", "Y")] []
      = [("a", "pA", "b"), ("b", "pB", "a")] ∧
    getA pmChain "pB" = some propBx ∧
    propBx.inverseOf = some "pC" ∧
    getA pmChain "pC" = some propCx ∧
    propCx.functional = false ∧ propCx.irreflexive = false ∧
    propCx.asymmetric = false ∧
    ¬ InvHolds pmChain
      (generateObjectPropertiesPhase classesXY pmChain [("X", ["a"]), ("Y", ["b"])]
        takeOracle [("a", "X"), ("b", "Y")] []) := by
  have hrun : generateObjectPropertiesPhase classesXY pmChain
      [("X", ["a"]), ("Y", ["b"])] takeOracle [("a", "X"), ("b", "Y")] []
      = [("a", "pA", "b"), ("b", "pB", "a")] := by decide
  refine ⟨hrun, rfl, rfl, rfl, rfl, rfl, rfl, ?_⟩
  intro hIH
  rw [hrun] at hIH
  have := hIH "b" "pB" "a" (by decide) propBx rfl "pC" rfl propCx rfl
  rcases this with h | ⟨h, _⟩ | ⟨h, _⟩ | ⟨h, _⟩
  · revert h
    decide
  · cases h
  · cases h
  · cases h

/-- C5 amended: in every run of the object-property phase over a property
map whose keys are unique, key their property's URI, and whose declared
inverses are mutually symmetric, every asserted edge (a, P, b) whose
predicate has a declared inverse Q in the map satisfies: (b, Q, a) is also
present, unless Q is functional and b already carries a Q value, or Q is
irreflexive and the mirror would be a self-loop, or Q is asymmetric and
the reverse Q edge is present. -/
theorem claim5_amended_inverse_mirroring (classes : List OntologyClass)
    (pm : List (String × ObjectProperty))
    (indivByClass : List (String × List String)) (o : GenOracle)
    (indivClasses : List (String × String)) (g0 : List Trip)
    (hnodup : (pm.map Prod.fst).Nodup)
    (huri : ∀ pr ∈ pm, pr.2.uri = pr.1)
    (hsym : symmetricInverses pm = true)
    (hInv : InvHolds pm g0) :
    InvHolds pm
      (generateObjectPropertiesPhase classes pm indivByClass o indivClasses g0) :=
  generatePhase_inv classes pm indivByClass o indivClasses g0 hnodup huri
    (symmetricInverses_sound pm hsym) hInv

/-- C4 fixture: functional property with a symmetric inverse. -/
def propP : ObjectProperty :=
  { uri := "pP", domain := ["A"], range := ["B"], inverseOf := some "pQ",
    functional := true }

/-- C4 fixture: the inverse of propP. -/
def propQ : ObjectProperty :=
  { uri := "pQ", domain := ["B"], range := ["A"], inverseOf := some "pP" }

/-- C4 fixture: property map. -/
def pmPQ : List (String × ObjectProperty) := [("pP", propP), ("pQ", propQ)]

/-- C4 fixture: the two classes. -/
def classesAB : List OntologyClass := [{ uri := "B" }, { uri := "A" }]

/-- C4 oracle: b2 skips generation; a1 samples the second pool element
(one possible outcome of the random draws). -/
def abOracle : GenOracle :=
  ⟨fun ind _ => !(ind == "b2"), fun _ _ => true, fun _ _ => 0,
   fun ind _ pool k => if ind == "a1" then (pool.drop 1).take k else pool.take k⟩

/-- Witness for the amended C5 statement on a concrete symmetric-inverse
property map. -/
theorem claim5_amended_witness :
    ((pmPQ.map Prod.fst).Nodup) ∧ symmetricInverses pmPQ = true ∧
    InvHolds pmPQ
      (generateObjectPropertiesPhase classesAB pmPQ
        [("B", ["b1", "b2"]), ("A", ["a1"])] takeOracle
        [("b1", "B"), ("a1", "A")] []) := by
  refine ⟨by decide, by decide, ?_⟩
  apply claim5_amended_inverse_mirroring
  · decide
  · intro pr hpr
    fin_cases hpr <;> rfl
  · decide
  · intro a u b h
    exact absurd h (List.not_mem_nil _)

/-- C4: the functional object property pP ends up with two values on a1.
The mirror of b1's pQ edge first gives a1 the pP value b1; a1's own direct
generation then adds pP = b2 without checking the existing value, so the
A-box violates the at-most-one-value guarantee for functional properties. -/
theorem claim4_functional_two_values :
    generateObjectPropertiesPhase classesAB pmPQ
        [("B", ["b1", "b2"]), ("A", ["a1"])] abOracle
        [("b1", "B"), ("b2", "B"), ("a1", "A")] []
      = [("b1", "pQ", "a1"), ("a1", "pP", "b1"),
         ("a1", "pP", "b2"), ("b2", "pQ", "a1")] ∧
    propP.functional = true ∧
    getA pmPQ "pP" = some propP ∧
    ("a1", "pP", "b1") ∈ generateObjectPropertiesPhase classesAB pmPQ
        [("B", ["b1", "b2"]), ("A", ["a1"])] abOracle
        [("b1", "B"), ("b2", "B"), ("a1", "A")] [] ∧
    ("a1", "pP", "b2") ∈ generateObjectPropertiesPhase classesAB pmPQ
        [("B", ["b1", "b2"]), ("A", ["a1"])] abOracle
        [("b1", "B"), ("b2", "B"), ("a1", "A")] [] ∧
    "b1" ≠ "b2" := by
  refine ⟨by decide, rfl, rfl, by decide, by decide, by decide⟩

mutual

/-- Structural equality of Json values (Python == on parsed values). -/
def jsonBeq : Json → Json → Bool
  | .null, .null => true
  | .str a, .str b => a == b
  | .int a, .int b => a == b
  | .bool a, .bool b => a == b
  | .arr a, .arr b => jsonBeqList a b
  | .obj a, .obj b => jsonBeqObj a b
  | _, _ => false

/-- Element-wise equality of Json arrays. -/
def jsonBeqList : List Json → List Json → Bool
  | [], [] => true
  | a :: as, b :: bs => jsonBeq a b && jsonBeqList as bs
  | _, _ => false

/-- Pair-wise equality of Json objects. -/
def jsonBeqObj : List (String × Json) → List (String × Json) → Bool
  | [], [] => true
  | (k1, v1) :: as, (k2, v2) :: bs => k1 == k2 && jsonBeq v1 v2 && jsonBeqObj as bs
  | _, _ => false

end

/-- An rdflib graph node: URI reference, blank node, or literal (carrying
its parsed value and language tag). -/
inductive Node where
  | uri (s : String)
  | bnode (s : String)
  | lit (value : Json) (lang : Option String)

/-- rdflib node equality: nodes of different kinds never compare equal. -/
def nodeBeq : Node → Node → Bool
  | .uri a, .uri b => a == b
  | .bnode a, .bnode b => a == b
  | .lit v1 l1, .lit v2 l2 => jsonBeq v1 v2 && l1 == l2
  | _, _ => false

/-- Python str() of a node: URIRef / BNode strings, a literal's lexical
form. -/
def nodeStr : Node → String
  | .uri s => s
  | .bnode s => s
  | .lit v _ =>
      match v with
      | .str s => s
      | .int n => toString n
      | .bool b => if b then "true" else "false"
      | w => jsonDumps w

/-- An RDF triple of nodes. -/
abbrev NTrip := Node × Node × Node

/-- graph.objects(s, p). -/
def objectsOfN (g : List NTrip) (s p : Node) : List Node :=
  g.filterMap (fun t =>
    if nodeBeq t.1 s && nodeBeq t.2.1 p then some t.2.2 else none)

/-- graph.predicate_objects(s). -/
def predicateObjects (g : List NTrip) (s : Node) : List (Node × Node) :=
  g.filterMap (fun t => if nodeBeq t.1 s then some (t.2.1, t.2.2) else none)

/-- rdf:type. -/
def rdfTypeU : String := "http://www.w3.org/1999/02/22-rdf-syntax-ns#type"

/-- rdf:first. -/
def rdfFirstU : String := "http://www.w3.org/1999/02/22-rdf-syntax-ns#first"

/-- rdf:rest. -/
def rdfRestU : String := "http://www.w3.org/1999/02/22-rdf-syntax-ns#rest"

/-- rdf:nil. -/
def rdfNilU : String := "http://www.w3.org/1999/02/22-rdf-syntax-ns#nil"

/-- rdfs:label. -/
def rdfsLabelU : String := "http://www.w3.org/2000/01/rdf-schema#label"

/-- rdfs:comment. -/
def rdfsCommentU : String := "http://www.w3.org/2000/01/rdf-schema#comment"

/-- rdfs:subClassOf. -/
def rdfsSubClassOfU : String := "http://www.w3.org/2000/01/rdf-schema#subClassOf"

/-- rdfs:subPropertyOf. -/
def rdfsSubPropertyOfU : String :=
  "http://www.w3.org/2000/01/rdf-schema#subPropertyOf"

/-- rdfs:domain. -/
def rdfsDomainU : String := "http://www.w3.org/2000/01/rdf-schema#domain"

/-- rdfs:range. -/
def rdfsRangeU : String := "http://www.w3.org/2000/01/rdf-schema#range"

/-- owl:Class. -/
def owlClassU : String := "http://www.w3.org/2002/07/owl#Class"

/-- owl:equivalentClass. -/
def owlEquivalentClassU : String :=
  "http://www.w3.org/2002/07/owl#equivalentClass"

/-- owl:disjointWith. -/
def owlDisjointWithU : String := "http://www.w3.org/2002/07/owl#disjointWith"

/-- owl:onProperty. -/
def owlOnPropertyU : String := "http://www.w3.org/2002/07/owl#onProperty"

/-- owl:allValuesFrom. -/
def owlAllValuesFromU : String := "http://www.w3.org/2002/07/owl#allValuesFrom"

/-- owl:someValuesFrom. -/
def owlSomeValuesFromU : String :=
  "http://www.w3.org/2002/07/owl#someValuesFrom"

/-- owl:hasValue. -/
def owlHasValueU : String := "http://www.w3.org/2002/07/owl#hasValue"

/-- owl:minCardinality. -/
def owlMinCardinalityU : String :=
  "http://www.w3.org/2002/07/owl#minCardinality"

/-- owl:maxCardinality. -/
def owlMaxCardinalityU : String :=
  "http://www.w3.org/2002/07/owl#maxCardinality"

/-- owl:cardinality. -/
def owlCardinalityU : String := "http://www.w3.org/2002/07/owl#cardinality"

/-- owl:oneOf. -/
def owlOneOfU : String := "http://www.w3.org/2002/07/owl#oneOf"

/-- _get_annotations' skip_predicates set. -/
def skipPredicates : List String :=
  [rdfTypeU, rdfsLabelU, rdfsCommentU, rdfsSubClassOfU, rdfsSubPropertyOfU,
   rdfsDomainU, rdfsRangeU, owlEquivalentClassU, owlDisjointWithU,
   owlOnPropertyU, owlAllValuesFromU, owlSomeValuesFromU, owlHasValueU,
   owlMinCardinalityU, owlMaxCardinalityU, owlCardinalityU]

/-- OntologyParser._shorten_uri: first matching namespace wins; otherwise
fall back to the fragment / last path segment (same computation as the
shared _get_local_name helper, here getName). -/
def shortenUri (ns : List (String × String)) (uri : String) : String :=
  match ns.find? (fun p => strStartsWith uri p.2) with
  | some p =>
      let localName := strDrop uri p.2.length
      if p.1.isEmpty then localName else p.1 ++ ":" ++ localName
  | none => getName uri

/-- OntologyParser._get_annotations: every non-skipped predicate of the
subject lands in the map under its shortened name; a literal object
contributes its parsed value, any other node its string form. -/
def getAnnotations (ns : List (String × String)) (g : List NTrip)
    (subject : Node) : List (String × Json) :=
  (predicateObjects g subject).foldl
    (fun annotations po =>
      if skipPredicates.any (fun sp => nodeBeq po.1 (.uri sp)) then annotations
      else
        let predStr := shortenUri ns (nodeStr po.1)
        match po.2 with
        | .lit v _ => setKey annotations predStr v
        | o => setKey annotations predStr (.str (nodeStr o)))
    []

/-- OntologyParser._get_labels. -/
def getLabels (g : List NTrip) (subject : Node) : Option Json :=
  let labels := (objectsOfN g subject (.uri rdfsLabelU)).foldl
    (fun acc o =>
      match o with
      | .lit v lang =>
          match lang with
          | some l =>
              if l.isEmpty then setKey acc "default" (Json.str (nodeStr (.lit v lang)))
              else setKey acc l (Json.str (nodeStr (.lit v lang)))
          | none => setKey acc "default" (Json.str (nodeStr (.lit v lang)))
      | _ => acc)
    []
  if labels.length == 1 && hasKey labels "default" then getA labels "default"
  else if labels.isEmpty then none
  else some (.obj labels)

/-- OntologyParser._get_enum_value: prefer the label (English first for a
language dict), else the local name. -/
def getEnumValue (g : List NTrip) (u : String) : String :=
  match getLabels g (.uri u) with
  | some (.str s) => s
  | some (.obj d) =>
      match getA d "en" with
      | some (.str s) => s
      | _ =>
          match getA d "default" with
          | some (.str s) => s
          | _ => getName u
  | _ => getName u

/-- RDF-list walk of _parse_enumeration (fuel bounds the rest-chain; the
Python loop would not terminate on a cyclic chain). -/
def parseEnumListAux (g : List NTrip) :
    Nat → Option Node → List String → List String
  | 0, _, acc => acc
  | _, none, acc => acc
  | fuel + 1, some cur, acc =>
      if nodeBeq cur (.uri rdfNilU) then acc
      else
        let acc2 := match (objectsOfN g cur (.uri rdfFirstU)).head? with
          | some (.uri f) => acc ++ [getEnumValue g f]
          | _ => acc
        parseEnumListAux g fuel ((objectsOfN g cur (.uri rdfRestU)).head?) acc2

/-- OntologyParser._parse_enumeration: the first owl:oneOf whose list
yields values wins. -/
def parseEnumeration (g : List NTrip) (node : Node) : Option (List String) :=
  (objectsOfN g node (.uri owlOneOfU)).foldl
    (fun res oneOf =>
      match res with
      | some _ => res
      | none =>
          let vals := parseEnumListAux g (g.length + 1) (some oneOf) []
          if vals.isEmpty then none else some vals)
    none

/-- The annotations _parse_classes gives a (non-blank) class subject:
the enumeration entry from blank-node superclasses, then the
_get_annotations update. -/
def parseClassAnnotations (ns : List (String × String)) (g : List NTrip)
    (classUri : String) : List (String × Json) :=
  let enumAnn := (objectsOfN g (.uri classUri) (.uri rdfsSubClassOfU)).foldl
    (fun ann sc =>
      match sc with
      | .bnode b =>
          match parseEnumeration g (.bnode b) with
          | some vals => setKey ann "enumeration" (.arr (vals.map Json.str))
          | none => ann
      | _ => ann)
    []
  updateKeys enumAnn (getAnnotations ns g (.uri classUri))

/-- The class subjects _parse_classes iterates (URI subjects typed
owl:Class; blank nodes are skipped). -/
def parsedClassUris (g : List NTrip) : List String :=
  g.filterMap (fun t =>
    match t with
    | (Node.uri s, p, o) =>
        if nodeBeq p (.uri rdfTypeU) && nodeBeq o (.uri owlClassU) then some s
        else none
    | _ => none)

/-- The namespaces rdflib binds on every fresh Graph (what
_extract_namespaces collects for a document declaring no prefixes of its
own). -/
def coreNamespaces : List (String × String) :=
  [("xml", "http://www.w3.org/XML/1998/namespace"),
   ("rdf", "http://www.w3.org/1999/02/22-rdf-syntax-ns#"),
   ("rdfs", "http://www.w3.org/2000/01/rdf-schema#"),
   ("xsd", "http://www.w3.org/2001/XMLSchema#"),
   ("owl", "http://www.w3.org/2002/07/owl#")]

theorem keys_ne_of_getA_none {α : Type} {l : List (String × α)} {k : String}
    (h : getA l k = none) : ∀ p ∈ l, p.1 ≠ k := by
  induction l with
  | nil => intro p hp; cases hp
  | cons q rest ih =>
      obtain ⟨k2, v2⟩ := q
      by_cases hk : k2 = k
      · subst hk; simp [getA] at h
      · rw [show getA ((k2, v2) :: rest) k = getA rest k from by simp [getA, hk]] at h
        intro p hp
        rcases List.mem_cons.mp hp with h1 | h1
        · subst h1; exact hk
        · exact ih h p h1

theorem mem_predicateObjects {g : List NTrip} {s : Node} {po : Node × Node}
    (h : po ∈ predicateObjects g s) : ∃ t ∈ g, t.2.1 = po.1 := by
  rw [predicateObjects, List.mem_filterMap] at h
  obtain ⟨t, ht, hf⟩ := h
  by_cases hc : nodeBeq t.1 s = true
  · rw [if_pos hc] at hf
    injection hf with hf
    exact ⟨t, ht, by rw [← hf]⟩
  · rw [if_neg hc] at hf
    cases hf

/-- A key other than "enumeration" enters a parsed class's annotations
only through a non-skipped predicate whose shortened name is that key. -/
theorem getA_parseClassAnnotations_none (ns : List (String × String))
    (g : List NTrip) (u k : String) (hk : k ≠ "enumeration")
    (hker : ∀ t ∈ g,
      (skipPredicates.any (fun sp => nodeBeq t.2.1 (.uri sp))) = false →
      shortenUri ns (nodeStr t.2.1) ≠ k) :
    getA (parseClassAnnotations ns g u) k = none := by
  have hQ : getA (getAnnotations ns g (.uri u)) k = none := by
    rw [getAnnotations]
    refine foldl_preserves (fun m => getA m k = none) _ _ ?_ [] rfl
    intro a po hpo ha
    by_cases hskip : (skipPredicates.any (fun sp => nodeBeq po.1 (.uri sp))) = true
    · rw [if_pos hskip]; exact ha
    · rw [if_neg hskip]
      obtain ⟨t, ht, hteq⟩ := mem_predicateObjects hpo
      have hne : shortenUri ns (nodeStr po.1) ≠ k := by
        rw [← hteq]
        refine hker t ht ?_
        rw [hteq]
        exact Bool.eq_false_iff.mpr hskip
      dsimp only
      cases hpo2 : po.2 with
      | lit v lang =>
          rw [getA_setKey_other _ _ _ _ (Ne.symm hne)]
          exact ha
      | uri s2 =>
          rw [getA_setKey_other _ _ _ _ (Ne.symm hne)]
          exact ha
      | bnode b2 =>
          rw [getA_setKey_other _ _ _ _ (Ne.symm hne)]
          exact ha
  rw [parseClassAnnotations, updateKeys]
  refine foldl_preserves (fun m => getA m k = none) _ _ ?_ _ ?_
  · intro a p hp ha
    rw [getA_setKey_other _ _ _ _ (Ne.symm (keys_ne_of_getA_none hQ p hp))]
    exact ha
  · refine foldl_preserves (fun m => getA m k = none) _ _ ?_ [] rfl
    intro a sc _ ha
    cases sc with
    | bnode b =>
        dsimp only
        cases hpe : parseEnumeration g (.bnode b) with
        | some vals =>
            dsimp only
            rw [getA_setKey_other _ _ _ _ hk]
            exact ha
        | none => exact ha
    | uri s2 => exact ha
    | lit v lang => exact ha

theorem unionVisitClass_none {cls : OntologyClass}
    (h : getA cls.annotations "unionOf" = none) : unionVisitClass cls = none := by
  rw [unionVisitClass, h]

theorem intersectionVisitClass_none {cls : OntologyClass}
    (h : getA cls.annotations "intersectionOf" = none) :
    intersectionVisitClass cls = none := by
  rw [intersectionVisitClass, h]

theorem complementVisitClass_none {cls : OntologyClass}
    (h : getA cls.annotations "complementOf" = none) :
    complementVisitClass cls = none := by
  rw [complementVisitClass, h]

/-- C6 counterexample graph: a class carrying a custom annotation
predicate whose local name is unionOf. -/
def c6Graph : List NTrip :=
  [(.uri "http://ex.org/C", .uri rdfTypeU, .uri owlClassU),
   (.uri "http://ex.org/C", .uri "http://ex.org/vocab#unionOf",
    .uri "http://ex.org/A")]

/-- C6 counterexample class: annotations exactly as the parser produces
them for c6Graph. -/
def c6UnionClass : OntologyClass :=
  { uri := "http://ex.org/C",
    annotations :=
      parseClassAnnotations coreNamespaces c6Graph "http://ex.org/C" }

/-- C6: as stated the claim is false.  _get_annotations skips only the
fixed predicate set, and _shorten_uri reduces an unknown-namespace URI to
its fragment, so the custom predicate http://ex.org/vocab#unionOf lands in
the parsed class's annotations under the key unionOf, which
UnionToAnyOfRule then treats as union information and returns a non-None
result. -/
theorem claim6_counterexample_custom_union_key :
    parsedClassUris c6Graph = ["http://ex.org/C"] ∧
    parseClassAnnotations coreNamespaces c6Graph "http://ex.org/C"
      = [("unionOf", Json.str "http://ex.org/A")] ∧
    (unionVisitClass c6UnionClass).isSome = true :=
  ⟨rfl, rfl, rfl⟩

/-- C6 amended: over a graph none of whose non-skipped predicates shortens
to unionOf, intersectionOf or complementOf, every parsed class's
annotations lack those keys, so UnionToAnyOfRule and IntersectionToAllOfRule
collect nothing at the ontology level and ComplementToNotRule returns None
for every class. -/
theorem claim6_amended_rules_inert (ns : List (String × String))
    (g : List NTrip) (m : OntologyModel)
    (hpred : ∀ t ∈ g,
      (skipPredicates.any (fun sp => nodeBeq t.2.1 (.uri sp))) = false →
      shortenUri ns (nodeStr t.2.1) ≠ "unionOf" ∧
      shortenUri ns (nodeStr t.2.1) ≠ "intersectionOf" ∧
      shortenUri ns (nodeStr t.2.1) ≠ "complementOf")
    (hcls : ∀ cls ∈ m.classes, ∃ u,
      cls.annotations = parseClassAnnotations ns g u) :
    unionToAnyOfVisit m = none ∧ intersectionToAllOfVisit m = none ∧
    ∀ cls ∈ m.classes, complementVisitClass cls = none := by
  have hnone : ∀ cls ∈ m.classes,
      unionVisitClass cls = none ∧ intersectionVisitClass cls = none ∧
      complementVisitClass cls = none := by
    intro cls hc
    obtain ⟨u, hu⟩ := hcls cls hc
    refine ⟨unionVisitClass_none ?_, intersectionVisitClass_none ?_,
      complementVisitClass_none ?_⟩ <;> rw [hu]
    · exact getA_parseClassAnnotations_none ns g u _ (by decide)
        (fun t ht hs => (hpred t ht hs).1)
    · exact getA_parseClassAnnotations_none ns g u _ (by decide)
        (fun t ht hs => (hpred t ht hs).2.1)
    · exact getA_parseClassAnnotations_none ns g u _ (by decide)
        (fun t ht hs => (hpred t ht hs).2.2)
  refine ⟨?_, ?_, fun cls hc => (hnone cls hc).2.2⟩
  · rw [unionToAnyOfVisit]
    rw [List.filterMap_eq_nil_iff.mpr (fun c hc => (hnone c hc).1)]
    rfl
  · rw [intersectionToAllOfVisit]
    rw [List.filterMap_eq_nil_iff.mpr (fun c hc => (hnone c hc).2.1)]
    rfl

/-- C6 witness graph: one class with an ordinary custom annotation. -/
def c6BenignGraph : List NTrip :=
  [(.uri "http://ex.org/C", .uri rdfTypeU, .uri owlClassU),
   (.uri "http://ex.org/C", .uri "http://ex.org/vocab#color",
    .uri "http://ex.org/Red")]

/-- C6 witness class: annotations exactly as the parser produces them. -/
def c6Class : OntologyClass :=
  { uri := "http://ex.org/C",
    annotations :=
      parseClassAnnotations coreNamespaces c6BenignGraph "http://ex.org/C" }

/-- C6 witness model. -/
def c6Model : OntologyModel :=
  { uri := "http://ex.org/onto", classes := [c6Class] }

/-- Witness for the amended C6 statement on a concrete benign graph. -/
theorem claim6_amended_witness :
    unionToAnyOfVisit c6Model = none ∧
    intersectionToAllOfVisit c6Model = none ∧
    ∀ cls ∈ c6Model.classes, complementVisitClass cls = none := by
  apply claim6_amended_rules_inert coreNamespaces c6BenignGraph
  · decide
  · intro cls hc
    have h1 : cls = c6Class := List.mem_singleton.mp hc
    subst h1
    exact ⟨"http://ex.org/C", rfl⟩

/-- rdflib triple equality. -/
def ntripBeq (a b : NTrip) : Bool :=
  nodeBeq a.1 b.1 && nodeBeq a.2.1 b.2.1 && nodeBeq a.2.2 b.2.2

/-- Graph.add: rdflib graphs are sets of triples. -/
def addN (g : List NTrip) (t : NTrip) : List NTrip :=
  if g.any (fun t2 => ntripBeq t2 t) then g else g ++ [t]

/-- ABoxValidator.validate's combination step: every T-box triple, then
every A-box triple, into a fresh graph. -/
def combineGraphs (tbox abox : List NTrip) : List NTrip :=
  abox.foldl addN (tbox.foldl addN [])

/-- graph.subjects(p, o). -/
def subjectsOfN (g : List NTrip) (p o : Node) : List Node :=
  g.filterMap (fun t =>
    if nodeBeq t.2.1 p && nodeBeq t.2.2 o then some t.1 else none)

/-- owl:Nothing. -/
def owlNothingU : String := "http://www.w3.org/2002/07/owl#Nothing"

/-- owl:Thing. -/
def owlThingU : String := "http://www.w3.org/2002/07/owl#Thing"

/-- owl:NamedIndividual. -/
def owlNamedIndividualU : String :=
  "http://www.w3.org/2002/07/owl#NamedIndividual"

/-- owl:FunctionalProperty. -/
def owlFunctionalPropertyU : String :=
  "http://www.w3.org/2002/07/owl#FunctionalProperty"

/-- owl:AllDisjointClasses. -/
def owlAllDisjointClassesU : String :=
  "http://www.w3.org/2002/07/owl#AllDisjointClasses"

/-- owl:members. -/
def owlMembersU : String := "http://www.w3.org/2002/07/owl#members"

/-- An inconsistency record of ABoxValidator (its dict's type tag is the
constructor; the message is the formatted string of the source). -/
inductive Issue where
  | nothingInstance (individual message : String)
  | disjointViolation (individual : String) (classes : List String)
      (message : String)
  | functionalViolation (subject property : String) (values : List String)
      (message : String)

/-- ABoxValidator._check_nothing_instances. -/
def checkNothingInstances (g : List NTrip) : List Issue :=
  (subjectsOfN g (.uri rdfTypeU) (.uri owlNothingU)).filterMap
    (fun s =>
      match s with
      | .uri u => some (.nothingInstance u
          ("Individual " ++ getName u
            ++ " is typed as owl:Nothing (contradiction)"))
      | _ => none)

/-- The class_types filter of _check_disjoint_violations. -/
def classTypes (g : List NTrip) (ind : Node) : List Node :=
  (objectsOfN g ind (.uri rdfTypeU)).filter
    (fun t => !nodeBeq t (.uri owlNamedIndividualU)
      && !nodeBeq t (.uri owlThingU))

/-- The enumerate / slice double loop: every pair with the first component
earlier in the list. -/
def allPairs {α : Type} : List α → List (α × α)
  | [] => []
  | x :: xs => xs.map (fun y => (x, y)) ++ allPairs xs

/-- ABoxValidator._parse_rdf_list (fuel bounds the rest-chain; the Python
loop would not terminate on a cyclic chain). -/
def parseRdfListN (g : List NTrip) : Nat → Option Node → List Node → List Node
  | 0, _, acc => acc
  | _, none, acc => acc
  | fuel + 1, some cur, acc =>
      if nodeBeq cur (.uri rdfNilU) then acc
      else
        let acc2 := match (objectsOfN g cur (.uri rdfFirstU)).head? with
          | some f => acc ++ [f]
          | none => acc
        parseRdfListN g fuel ((objectsOfN g cur (.uri rdfRestU)).head?) acc2

/-- ABoxValidator._are_disjoint. -/
def areDisjoint (g : List NTrip) (class1 class2 : Node) : Bool :=
  if g.any (fun t => ntripBeq t (class1, .uri owlDisjointWithU, class2)) then
    true
  else if g.any (fun t => ntripBeq t (class2, .uri owlDisjointWithU, class1)) then
    true
  else
    (subjectsOfN g (.uri rdfTypeU) (.uri owlAllDisjointClassesU)).any
      (fun dn =>
        (objectsOfN g dn (.uri owlMembersU)).any
          (fun ml =>
            let classList := parseRdfListN g (g.length + 1) (some ml) []
            classList.any (fun c => nodeBeq c class1) &&
            classList.any (fun c => nodeBeq c class2)))

/-- ABoxValidator._check_disjoint_violations. -/
def checkDisjointViolations (g : List NTrip) : List Issue :=
  (subjectsOfN g (.uri rdfTypeU) (.uri owlNamedIndividualU)).foldl
    (fun issues ind =>
      issues ++ (allPairs (classTypes g ind)).filterMap
        (fun p =>
          if areDisjoint g p.1 p.2 then
            some (.disjointViolation (nodeStr ind)
              [nodeStr p.1, nodeStr p.2]
              ("Individual " ++ getName (nodeStr ind)
                ++ " belongs to disjoint classes: "
                ++ getName (nodeStr p.1) ++ " and " ++ getName (nodeStr p.2)))
          else none))
    []

/-- The subject-grouping dict of _check_functional_property_violations
(insertion-ordered, values appended in triple order). -/
def addSV (acc : List (Node × List Node)) (s o : Node) :
    List (Node × List Node) :=
  match acc with
  | [] => [(s, [o])]
  | (k, vs) :: rest =>
      if nodeBeq k s then (k, vs ++ [o]) :: rest
      else (k, vs) :: addSV rest s o

/-- ABoxValidator._check_functional_property_violations. -/
def checkFunctionalViolations (g : List NTrip) : List Issue :=
  (subjectsOfN g (.uri rdfTypeU) (.uri owlFunctionalPropertyU)).foldl
    (fun issues prop =>
      let sv := g.foldl
        (fun acc t => if nodeBeq t.2.1 prop then addSV acc t.1 t.2.2 else acc)
        []
      issues ++ sv.filterMap
        (fun p =>
          if p.2.length > 1 then
            some (.functionalViolation (nodeStr p.1) (nodeStr prop)
              (p.2.map nodeStr)
              ("Functional property " ++ getName (nodeStr prop) ++ " has "
                ++ toString p.2.length ++ " values for "
                ++ getName (nodeStr p.1)))
          else none))
    []

/-- ABoxValidator._check_inconsistencies: the nothing / disjoint /
functional checks in order (the cardinality and domain-range checks are
pass statements). -/
def runChecks (g : List NTrip) : List Issue :=
  checkNothingInstances g ++ checkDisjointViolations g
    ++ checkFunctionalViolations g

/-- ABoxValidator.validate: combine T-box and A-box, expand with the
OWL-RL deductive closure (the external owlrl library, abstracted as cl),
run the checks; is_consistent is True exactly when no issue was appended
(barring reasoner exceptions). -/
def validate (cl : List NTrip → List NTrip) (tbox abox : List NTrip) :
    Bool × List Issue :=
  let combined := combineGraphs tbox abox
  let expanded := cl combined
  let issues := runChecks expanded
  (issues.isEmpty, issues)

theorem nodeBeq_uri_uri (a b : String) :
    nodeBeq (.uri a) (.uri b) = (a == b) := rfl

theorem nodeBeq_uri_iff {n : Node} {s : String} :
    nodeBeq n (.uri s) = true ↔ n = .uri s := by
  cases n <;> simp [nodeBeq]

theorem uri_nodeBeq_iff {n : Node} {s : String} :
    nodeBeq (.uri s) n = true ↔ n = .uri s := by
  cases n with
  | uri a =>
      rw [nodeBeq_uri_uri, beq_iff_eq]
      exact ⟨fun h => by rw [h], fun h => by injection h with h2; exact h2.symm⟩
  | bnode a => simp [nodeBeq]
  | lit v l => simp [nodeBeq]

theorem ntripBeq_uri_iff {t : NTrip} {s p o : String} :
    ntripBeq t (.uri s, .uri p, .uri o) = true
      ↔ t = (.uri s, .uri p, .uri o) := by
  obtain ⟨a, b, c⟩ := t
  simp [ntripBeq, nodeBeq_uri_iff, Prod.ext_iff, and_assoc]

theorem mem_addN_mono {g : List NTrip} {t t2 : NTrip} (h : t ∈ g) :
    t ∈ addN g t2 := by
  rw [addN]
  split
  · exact h
  · exact List.mem_append_left _ h

theorem mem_addN_self_uri {g : List NTrip} {s p o : String} :
    (Node.uri s, Node.uri p, Node.uri o) ∈ addN g (.uri s, .uri p, .uri o) := by
  rw [addN]
  split
  · next hany =>
      obtain ⟨t2, ht2, hbeq⟩ := List.any_eq_true.mp hany
      rw [ntripBeq_uri_iff.mp hbeq] at ht2
      exact ht2
  · exact List.mem_append_right _ (List.mem_cons_self _ _)

theorem mem_foldl_addN_mono {l g : List NTrip} {t : NTrip} (h : t ∈ g) :
    t ∈ l.foldl addN g :=
  foldl_preserves (fun g2 => t ∈ g2) addN l (fun _ _ _ ha => mem_addN_mono ha) g h

theorem mem_foldl_addN_of_mem {l : List NTrip} {g : List NTrip}
    {s p o : String} (h : (Node.uri s, Node.uri p, Node.uri o) ∈ l) :
    (Node.uri s, Node.uri p, Node.uri o) ∈ l.foldl addN g := by
  induction l generalizing g with
  | nil => cases h
  | cons y ys ih =>
      rcases List.mem_cons.mp h with h1 | h1
      · rw [List.foldl_cons]
        subst h1
        exact mem_foldl_addN_mono mem_addN_self_uri
      · rw [List.foldl_cons]
        exact ih h1

theorem mem_combineGraphs_left {tbox abox : List NTrip} {s p o : String}
    (h : (Node.uri s, Node.uri p, Node.uri o) ∈ tbox) :
    (Node.uri s, Node.uri p, Node.uri o) ∈ combineGraphs tbox abox :=
  mem_foldl_addN_mono (mem_foldl_addN_of_mem h)

theorem mem_combineGraphs_right {tbox abox : List NTrip} {s p o : String}
    (h : (Node.uri s, Node.uri p, Node.uri o) ∈ abox) :
    (Node.uri s, Node.uri p, Node.uri o) ∈ combineGraphs tbox abox :=
  mem_foldl_addN_of_mem h

theorem mem_objectsOfN {g : List NTrip} {s p : String} {o : Node}
    (h : (Node.uri s, Node.uri p, o) ∈ g) :
    o ∈ objectsOfN g (.uri s) (.uri p) := by
  rw [objectsOfN, List.mem_filterMap]
  refine ⟨(.uri s, .uri p, o), h, ?_⟩
  rw [if_pos (by simp [nodeBeq])]

theorem subjectsOfN_eq_nil {g : List NTrip} {p o : Node}
    (h : ∀ t ∈ g, (nodeBeq t.2.1 p && nodeBeq t.2.2 o) = false) :
    subjectsOfN g p o = [] := by
  rw [subjectsOfN]
  exact List.filterMap_eq_nil_iff.mpr (fun t ht => by simp [h t ht])

theorem checkNothingInstances_nil {g : List NTrip}
    (h : ∀ t ∈ g,
      (nodeBeq t.2.1 (.uri rdfTypeU) && nodeBeq t.2.2 (.uri owlNothingU))
        = false) :
    checkNothingInstances g = [] := by
  rw [checkNothingInstances, subjectsOfN_eq_nil h]
  rfl

theorem checkFunctionalViolations_nil {g : List NTrip}
    (h : ∀ t ∈ g,
      (nodeBeq t.2.1 (.uri rdfTypeU)
        && nodeBeq t.2.2 (.uri owlFunctionalPropertyU)) = false) :
    checkFunctionalViolations g = [] := by
  rw [checkFunctionalViolations, subjectsOfN_eq_nil h]
  rfl

theorem areDisjoint_of_mem {g : List NTrip} {a b : String}
    (h : (Node.uri a, Node.uri owlDisjointWithU, Node.uri b) ∈ g) :
    areDisjoint g (.uri a) (.uri b) = true := by
  have hany : (g.any fun t =>
      ntripBeq t (Node.uri a, Node.uri owlDisjointWithU, Node.uri b)) = true :=
    List.any_eq_true.mpr ⟨_, h, ntripBeq_uri_iff.mpr rfl⟩
  rw [areDisjoint, if_pos hany]

theorem areDisjoint_of_mem_rev {g : List NTrip} {a b : String}
    (h : (Node.uri b, Node.uri owlDisjointWithU, Node.uri a) ∈ g) :
    areDisjoint g (.uri a) (.uri b) = true := by
  have hany : (g.any fun t =>
      ntripBeq t (Node.uri b, Node.uri owlDisjointWithU, Node.uri a)) = true :=
    List.any_eq_true.mpr ⟨_, h, ntripBeq_uri_iff.mpr rfl⟩
  by_cases h1 : (g.any fun t =>
      ntripBeq t (Node.uri a, Node.uri owlDisjointWithU, Node.uri b)) = true
  · rw [areDisjoint, if_pos h1]
  · rw [areDisjoint, if_neg h1, if_pos hany]

theorem areDisjoint_char {g : List NTrip} {A B : String}
    (hdw : ∀ t ∈ g, nodeBeq t.2.1 (.uri owlDisjointWithU) = true →
      (nodeBeq t.1 (.uri A) && nodeBeq t.2.2 (.uri B)) = true ∨
      (nodeBeq t.1 (.uri B) && nodeBeq t.2.2 (.uri A)) = true)
    (hadc : ∀ t ∈ g,
      (nodeBeq t.2.1 (.uri rdfTypeU)
        && nodeBeq t.2.2 (.uri owlAllDisjointClassesU)) = false) :
    ∀ c1 c2 : Node, areDisjoint g c1 c2 = true →
      (c1 = .uri A ∧ c2 = .uri B) ∨ (c1 = .uri B ∧ c2 = .uri A) := by
  intro c1 c2 h
  rw [areDisjoint] at h
  by_cases h1 : g.any (fun t => ntripBeq t (c1, .uri owlDisjointWithU, c2)) = true
  · obtain ⟨t, ht, hbeq⟩ := List.any_eq_true.mp h1
    rw [ntripBeq] at hbeq
    dsimp only at hbeq
    rw [Bool.and_eq_true, Bool.and_eq_true] at hbeq
    obtain ⟨⟨hb1, hb2⟩, hb3⟩ := hbeq
    rcases hdw t ht hb2 with hc | hc <;> rw [Bool.and_eq_true] at hc <;>
      obtain ⟨hc1, hc2⟩ := hc
    · rw [nodeBeq_uri_iff.mp hc1] at hb1
      rw [nodeBeq_uri_iff.mp hc2] at hb3
      exact Or.inl ⟨(uri_nodeBeq_iff.mp hb1), (uri_nodeBeq_iff.mp hb3)⟩
    · rw [nodeBeq_uri_iff.mp hc1] at hb1
      rw [nodeBeq_uri_iff.mp hc2] at hb3
      exact Or.inr ⟨(uri_nodeBeq_iff.mp hb1), (uri_nodeBeq_iff.mp hb3)⟩
  · rw [if_neg h1] at h
    by_cases h2 : g.any (fun t => ntripBeq t (c2, .uri owlDisjointWithU, c1)) = true
    · obtain ⟨t, ht, hbeq⟩ := List.any_eq_true.mp h2
      rw [ntripBeq] at hbeq
      dsimp only at hbeq
      rw [Bool.and_eq_true, Bool.and_eq_true] at hbeq
      obtain ⟨⟨hb1, hb2⟩, hb3⟩ := hbeq
      rcases hdw t ht hb2 with hc | hc <;> rw [Bool.and_eq_true] at hc <;>
        obtain ⟨hc1, hc2⟩ := hc
      · rw [nodeBeq_uri_iff.mp hc1] at hb1
        rw [nodeBeq_uri_iff.mp hc2] at hb3
        exact Or.inr ⟨(uri_nodeBeq_iff.mp hb3), (uri_nodeBeq_iff.mp hb1)⟩
      · rw [nodeBeq_uri_iff.mp hc1] at hb1
        rw [nodeBeq_uri_iff.mp hc2] at hb3
        exact Or.inl ⟨(uri_nodeBeq_iff.mp hb3), (uri_nodeBeq_iff.mp hb1)⟩
    · rw [if_neg h2, subjectsOfN_eq_nil hadc] at h
      simp at h

theorem mem_allPairs {α : Type} {l : List α} {p : α × α}
    (h : p ∈ allPairs l) : p.1 ∈ l ∧ p.2 ∈ l := by
  induction l with
  | nil => cases h
  | cons x xs ih =>
      rw [allPairs] at h
      rcases List.mem_append.mp h with h1 | h1
      · obtain ⟨y, hy, hp⟩ := List.mem_map.mp h1
        subst hp
        exact ⟨List.mem_cons_self _ _, List.mem_cons_of_mem _ hy⟩
      · obtain ⟨ha, hb⟩ := ih h1
        exact ⟨List.mem_cons_of_mem _ ha, List.mem_cons_of_mem _ hb⟩

theorem filterMap_single_mem {α β : Type} (f : α → Option β) {l : List α}
    {b : α} {v : β} (hnd : l.Nodup) (hb : b ∈ l) (hv : f b = some v)
    (hrest : ∀ y ∈ l, y ≠ b → f y = none) : l.filterMap f = [v] := by
  induction l with
  | nil => cases hb
  | cons x xs ih =>
      rw [List.filterMap_cons]
      rcases List.mem_cons.mp hb with h1 | h1
      · subst h1
        rw [hv]
        have hnil : xs.filterMap f = [] :=
          List.filterMap_eq_nil_iff.mpr (fun y hy =>
            hrest y (List.mem_cons_of_mem _ hy)
              (fun he => (List.nodup_cons.mp hnd).1 (he ▸ hy)))
        rw [hnil]
      · have hxb : x ≠ b := fun he => (List.nodup_cons.mp hnd).1 (he ▸ h1)
        rw [hrest x (List.mem_cons_self _ _) hxb]
        exact ih (List.nodup_cons.mp hnd).2 h1
          (fun y hy hyb => hrest y (List.mem_cons_of_mem _ hy) hyb)

theorem allPairs_filterMap_single {α β : Type} (disj : α → α → Bool)
    (mk : α × α → β) :
    ∀ (l : List α) (a b : α), l.Nodup → a ∈ l → b ∈ l → a ≠ b →
    (∀ c1 c2, disj c1 c2 = true → (c1 = a ∧ c2 = b) ∨ (c1 = b ∧ c2 = a)) →
    disj a b = true → disj b a = true →
    (allPairs l).filterMap
        (fun p => if disj p.1 p.2 then some (mk p) else none)
      = [mk (a, b)] ∨
    (allPairs l).filterMap
        (fun p => if disj p.1 p.2 then some (mk p) else none)
      = [mk (b, a)] := by
  intro l
  induction l with
  | nil => intro a b _ ha _ _ _ _ _; cases ha
  | cons x xs ih =>
      intro a b hnd ha hb hab hchar hdab hdba
      have hndx := (List.nodup_cons.mp hnd).1
      have hndxs := (List.nodup_cons.mp hnd).2
      rw [allPairs, List.filterMap_append, List.filterMap_map]
      rcases List.mem_cons.mp ha with hax | hax
      · subst hax
        have hbxs : b ∈ xs := by
          rcases List.mem_cons.mp hb with h1 | h1
          · exact absurd h1.symm hab
          · exact h1
        left
        have hmap : xs.filterMap
            ((fun p => if disj p.1 p.2 then some (mk p) else none)
              ∘ (fun y => (a, y))) = [mk (a, b)] := by
          refine filterMap_single_mem _ hndxs hbxs ?_ ?_
          · show (if disj a b then some (mk (a, b)) else none) = some (mk (a, b))
            rw [if_pos hdab]
          · intro y hy hyb
            show (if disj a y then some (mk (a, y)) else none) = none
            rw [if_neg]
            intro hd
            rcases hchar a y hd with ⟨_, h2⟩ | ⟨h1, _⟩
            · exact hyb h2
            · exact hab h1
        have hrest : (allPairs xs).filterMap
            (fun p => if disj p.1 p.2 then some (mk p) else none) = [] := by
          refine List.filterMap_eq_nil_iff.mpr (fun p hp => ?_)
          rw [if_neg]
          intro hd
          rcases hchar p.1 p.2 hd with ⟨h1, _⟩ | ⟨_, h2⟩
          · exact hndx (h1 ▸ (mem_allPairs hp).1)
          · exact hndx (h2 ▸ (mem_allPairs hp).2)
        rw [hmap, hrest, List.append_nil]
      · rcases List.mem_cons.mp hb with hbx | hbx
        · subst hbx
          right
          have hmap : xs.filterMap
              ((fun p => if disj p.1 p.2 then some (mk p) else none)
                ∘ (fun y => (b, y))) = [mk (b, a)] := by
            refine filterMap_single_mem _ hndxs hax ?_ ?_
            · show (if disj b a then some (mk (b, a)) else none) = some (mk (b, a))
              rw [if_pos hdba]
            · intro y hy hyb
              show (if disj b y then some (mk (b, y)) else none) = none
              rw [if_neg]
              intro hd
              rcases hchar b y hd with ⟨h1, _⟩ | ⟨_, h2⟩
              · exact hab h1.symm
              · exact hyb h2
          have hrest : (allPairs xs).filterMap
              (fun p => if disj p.1 p.2 then some (mk p) else none) = [] := by
            refine List.filterMap_eq_nil_iff.mpr (fun p hp => ?_)
            rw [if_neg]
            intro hd
            rcases hchar p.1 p.2 hd with ⟨_, h2⟩ | ⟨h1, _⟩
            · exact hndx (h2 ▸ (mem_allPairs hp).2)
            · exact hndx (h1 ▸ (mem_allPairs hp).1)
          rw [hmap, hrest, List.append_nil]
        · have hx_a : x ≠ a := fun he => hndx (he ▸ hax)
          have hx_b : x ≠ b := fun he => hndx (he ▸ hbx)
          have hmap0 : xs.filterMap
              ((fun p => if disj p.1 p.2 then some (mk p) else none)
                ∘ (fun y => (x, y))) = [] := by
            refine List.filterMap_eq_nil_iff.mpr (fun y hy => ?_)
            show (if disj x y then some (mk (x, y)) else none) = none
            rw [if_neg]
            intro hd
            rcases hchar x y hd with ⟨h1, _⟩ | ⟨h1, _⟩
            · exact hx_a h1
            · exact hx_b h1
          rw [hmap0, List.nil_append]
          exact ih a b hndxs hax hbx hab hchar hdab hdba

/-- C7: a T-box declaring A owl:disjointWith B combined with an A-box
typing the owl:NamedIndividual x with both A and B makes
ABoxValidator.validate return is_consistent = false with exactly one
disjoint_violation issue naming x and both classes.  The OWL-RL closure
is the external owlrl library, abstracted as cl; the hypotheses record
that the closure keeps the asserted triples, introduces no owl:Nothing /
owl:FunctionalProperty / owl:AllDisjointClasses typings, no disjointWith
triples beyond the declared pair, no further NamedIndividual typings, and
no duplicate class types on x. -/
theorem claim7_disjoint_violation (cl : List NTrip → List NTrip)
    (tbox abox G : List NTrip) (x A B : String)
    (hG : cl (combineGraphs tbox abox) = G)
    (hAB : A ≠ B)
    (hAni : A ≠ owlNamedIndividualU) (hAth : A ≠ owlThingU)
    (hBni : B ≠ owlNamedIndividualU) (hBth : B ≠ owlThingU)
    (htb : (Node.uri A, Node.uri owlDisjointWithU, Node.uri B) ∈ tbox)
    (habA : (Node.uri x, Node.uri rdfTypeU, Node.uri A) ∈ abox)
    (habB : (Node.uri x, Node.uri rdfTypeU, Node.uri B) ∈ abox)
    (hsub : ∀ t ∈ combineGraphs tbox abox, t ∈ G)
    (hnamed : subjectsOfN G (.uri rdfTypeU) (.uri owlNamedIndividualU)
      = [.uri x])
    (hnd : (classTypes G (.uri x)).Nodup)
    (hdw : ∀ t ∈ G, nodeBeq t.2.1 (.uri owlDisjointWithU) = true →
      (nodeBeq t.1 (.uri A) && nodeBeq t.2.2 (.uri B)) = true ∨
      (nodeBeq t.1 (.uri B) && nodeBeq t.2.2 (.uri A)) = true)
    (hadc : ∀ t ∈ G,
      (nodeBeq t.2.1 (.uri rdfTypeU)
        && nodeBeq t.2.2 (.uri owlAllDisjointClassesU)) = false)
    (hnoth : ∀ t ∈ G,
      (nodeBeq t.2.1 (.uri rdfTypeU) && nodeBeq t.2.2 (.uri owlNothingU))
        = false)
    (hfunc : ∀ t ∈ G,
      (nodeBeq t.2.1 (.uri rdfTypeU)
        && nodeBeq t.2.2 (.uri owlFunctionalPropertyU)) = false) :
    (validate cl tbox abox).1 = false ∧
    ∃ c1 c2 : String, ((c1 = A ∧ c2 = B) ∨ (c1 = B ∧ c2 = A)) ∧
      (validate cl tbox abox).2
        = [Issue.disjointViolation x [c1, c2]
            ("Individual " ++ getName x ++ " belongs to disjoint classes: "
              ++ getName c1 ++ " and " ++ getName c2)] := by
  have hmemA : (Node.uri x, Node.uri rdfTypeU, Node.uri A) ∈ G :=
    hsub _ (mem_combineGraphs_right habA)
  have hmemB : (Node.uri x, Node.uri rdfTypeU, Node.uri B) ∈ G :=
    hsub _ (mem_combineGraphs_right habB)
  have hdwG : (Node.uri A, Node.uri owlDisjointWithU, Node.uri B) ∈ G :=
    hsub _ (mem_combineGraphs_left htb)
  have hA : Node.uri A ∈ classTypes G (.uri x) := by
    rw [classTypes]
    exact List.mem_filter.mpr ⟨mem_objectsOfN hmemA,
      by simp [nodeBeq_uri_uri, hAni, hAth]⟩
  have hB : Node.uri B ∈ classTypes G (.uri x) := by
    rw [classTypes]
    exact List.mem_filter.mpr ⟨mem_objectsOfN hmemB,
      by simp [nodeBeq_uri_uri, hBni, hBth]⟩
  have habn : Node.uri A ≠ Node.uri B := by
    intro he
    injection he with he2
    exact hAB he2
  have hdAB := areDisjoint_of_mem hdwG
  have hdBA := areDisjoint_of_mem_rev hdwG
  have hchar := areDisjoint_char hdw hadc
  have hval : validate cl tbox abox
      = ((runChecks G).isEmpty, runChecks G) := by
    rw [validate, hG]
  have hrun : runChecks G
      = (allPairs (classTypes G (.uri x))).filterMap
          (fun p =>
            if areDisjoint G p.1 p.2 then
              some (.disjointViolation (nodeStr (.uri x))
                [nodeStr p.1, nodeStr p.2]
                ("Individual " ++ getName (nodeStr (.uri x))
                  ++ " belongs to disjoint classes: "
                  ++ getName (nodeStr p.1) ++ " and " ++ getName (nodeStr p.2)))
            else none) := by
    rw [runChecks, checkNothingInstances_nil hnoth,
      checkFunctionalViolations_nil hfunc, checkDisjointViolations, hnamed]
    simp only [List.foldl_cons, List.foldl_nil, List.nil_append,
      List.append_nil]
  rcases allPairs_filterMap_single (areDisjoint G)
      (fun p => Issue.disjointViolation (nodeStr (.uri x))
        [nodeStr p.1, nodeStr p.2]
        ("Individual " ++ getName (nodeStr (.uri x))
          ++ " belongs to disjoint classes: "
          ++ getName (nodeStr p.1) ++ " and " ++ getName (nodeStr p.2)))
      (classTypes G (.uri x)) (.uri A) (.uri B) hnd hA hB habn hchar hdAB hdBA
    with hres | hres
  · refine ⟨?_, A, B, Or.inl ⟨rfl, rfl⟩, ?_⟩
    · rw [hval, hrun, hres]
      rfl
    · rw [hval, hrun, hres]
      rfl
  · refine ⟨?_, B, A, Or.inr ⟨rfl, rfl⟩, ?_⟩
    · rw [hval, hrun, hres]
      rfl
    · rw [hval, hrun, hres]
      rfl

/-- C7 witness T-box: A and B declared disjoint classes. -/
def c7Tbox : List NTrip :=
  [(.uri "http://ex.org/A", .uri owlDisjointWithU, .uri "http://ex.org/B"),
   (.uri "http://ex.org/A", .uri rdfTypeU, .uri owlClassU),
   (.uri "http://ex.org/B", .uri rdfTypeU, .uri owlClassU)]

/-- C7 witness A-box: x typed with NamedIndividual, A and B. -/
def c7Abox : List NTrip :=
  [(.uri "http://ex.org/x", .uri rdfTypeU, .uri owlNamedIndividualU),
   (.uri "http://ex.org/x", .uri rdfTypeU, .uri "http://ex.org/A"),
   (.uri "http://ex.org/x", .uri rdfTypeU, .uri "http://ex.org/B")]

/-- C7 witness combined graph (identity closure). -/
def c7G : List NTrip := combineGraphs c7Tbox c7Abox

/-- Witness for C7 on a concrete two-class scenario with the identity
closure. -/
theorem claim7_witness :
    (validate (fun g => g) c7Tbox c7Abox).1 = false ∧
    ∃ c1 c2 : String,
      ((c1 = "http://ex.org/A" ∧ c2 = "http://ex.org/B") ∨
       (c1 = "http://ex.org/B" ∧ c2 = "http://ex.org/A")) ∧
      (validate (fun g => g) c7Tbox c7Abox).2
        = [Issue.disjointViolation "http://ex.org/x" [c1, c2]
            ("Individual " ++ getName "http://ex.org/x"
              ++ " belongs to disjoint classes: "
              ++ getName c1 ++ " and " ++ getName c2)] := by
  apply claim7_disjoint_violation (fun g => g) c7Tbox c7Abox c7G
    "http://ex.org/x" "http://ex.org/A" "http://ex.org/B"
  · rfl
  · decide
  · decide
  · decide
  · decide
  · decide
  · exact List.mem_cons_self _ _
  · exact List.mem_cons_of_mem _ (List.mem_cons_self _ _)
  · exact List.mem_cons_of_mem _ (List.mem_cons_of_mem _ (List.mem_cons_self _ _))
  · exact fun t ht => ht
  · rfl
  · have hct : classTypes c7G (.uri "http://ex.org/x")
        = [.uri "http://ex.org/A", .uri "http://ex.org/B"] := rfl
    rw [hct]
    refine List.nodup_cons.mpr ⟨?_, List.nodup_singleton _⟩
    intro hmem
    rw [List.mem_singleton] at hmem
    injection hmem with hmem2
    exact absurd hmem2 (by decide)
  · decide
  · decide
  · decide
  · decide

end OntoJson
